import Mathlib

/-!
Verification of the extraction-and-matching engine of the Clinical Research
Form Filler extension.  The JavaScript sources (`background.js` and the
content-script file) are shallowly embedded below: JS numbers are modelled as
rationals (all constants in the scored paths are exact decimals), JS strings
as Lean strings (`String.toLower` is modelled ASCII-only, which agrees with
the source on every scored constant), and JS regular expressions as an
explicit syntax tree with an executable backtracking matcher.
-/

namespace CursorBrowser

/-! ## Basic string utilities shared by the embedding -/

/-- The character set matched by the JavaScript `\s` class (whitespace and
line separators). -/
def wsCharsL : List Char :=
  [' ', '\t', '\n', '\u000b', '\u000c', '\r', ' ', ' ',
   ' ', ' ', ' ', ' ', ' ', ' ', ' ',
   ' ', ' ', ' ', ' ', ' ', ' ', ' ',
   ' ', '　', '﻿']

/-- JS `\s` membership. -/
def isWs (c : Char) : Bool := wsCharsL.contains c

/-- JS line terminators (the characters `.` does not match). -/
def isLineTerm (c : Char) : Bool :=
  c = '\n' ∨ c = '\r' ∨ c = ' ' ∨ c = ' '

/-- JS `String.prototype.trim` over a character list: drop `\s` characters
from both ends. -/
def jsTrimL (l : List Char) : List Char :=
  ((l.dropWhile isWs).reverse.dropWhile isWs).reverse

/-- JS `String.prototype.trim`. -/
def jsTrim (s : String) : String := String.mk (jsTrimL s.toList)

/-- JS `String.prototype.toLowerCase`, modelled on the ASCII range (the
source only compares against ASCII constants). -/
def lowerStr (s : String) : String := String.mk (s.toList.map Char.toLower)

/-- JS `String.prototype.includes` over character lists. -/
def hasSub (hay needle : List Char) : Bool :=
  hay.tails.any (fun t => needle.isPrefixOf t)

/-- JS `String.prototype.includes`. -/
def strIncludes (hay needle : String) : Bool := hasSub hay.toList needle.toList

/-- A word character for the JS `\b` assertion: `[A-Za-z0-9_]`. -/
def isWordChar (c : Char) : Bool :=
  ('a' ≤ c ∧ c ≤ 'z') ∨ ('A' ≤ c ∧ c ≤ 'Z') ∨ ('0' ≤ c ∧ c ≤ '9') ∨ c = '_'

/-- Whether position `i` of `l` holds a word character (out of range counts
as non-word, as in JS). -/
def wordAtN (l : List Char) (i : Nat) : Bool :=
  match l.get? i with
  | some c => isWordChar c
  | none => false

/-- The JS `\b` assertion at position `pos` of `l` (between `l[pos-1]` and
`l[pos]`). -/
def boundaryAt (l : List Char) (pos : Nat) : Bool :=
  (if pos = 0 then false else wordAtN l (pos - 1)) != wordAtN l pos

/-- Case-insensitive prefix test (the JS `i` flag canonicalises letter
case; ASCII folding matches every keyword in the source). -/
def ciPrefix : List Char → List Char → Bool
  | [], _ => true
  | _ :: _, [] => false
  | a :: as, b :: bs => (a.toLower = b.toLower) && ciPrefix as bs

/-- `new RegExp("\\b" ++ kw ++ "\\b", "i").test(hay)`: some occurrence of
`kw` in `hay` (case-insensitively) with word boundaries on both sides. -/
def bWordTest (kw hay : List Char) : Bool :=
  (List.range (hay.length + 1)).any fun i =>
    ciPrefix kw (hay.drop i) && boundaryAt hay i && boundaryAt hay (i + kw.length)

/-! ## ConfidenceCalculator (`background.js` 588-611) -/

/-- `ConfidenceCalculator.calculatePatternConfidence(pattern, match)`.
`source`/`flags` are the regex literal's `.source` and `.flags` strings and
`g1` is `match[1]` (`none` when the pattern has no capture group; JS's
`undefined`).  Each `confidence += x` statement of the source becomes one
added conditional term, and the JS truthiness test `match[1] && ...`
(false for `undefined` and for the empty string) is mirrored by the
`(g1.getD "") ≠ ""` guard. -/
def calculatePatternConfidence (source flags : String) (g1 : Option String) : ℚ :=
  let c1 := 0.5 + (if strIncludes source "\\d" then (0.2 : ℚ) else 0)
  let c2 := c1 + (if strIncludes source "+" then (0.1 : ℚ) else 0)
  let c3 := c2 + (if strIncludes source "[A-Z]" then (0.1 : ℚ) else 0)
  let c4 := c3 - (if flags.toList.contains 'i' then (0.05 : ℚ) else 0)
  let c5 := c4 + (if (g1.getD "") ≠ "" ∧ (g1.getD "").length > 3 then (0.1 : ℚ) else 0)
  let c6 := c5 + (if (g1.getD "") ≠ "" ∧ (g1.getD "").length > 10 then (0.1 : ℚ) else 0)
  min c6 1

/-- One entry of the mapping list produced by
`AIProcessor.generateFieldMappings`. -/
structure Mapping where
  fieldId : String
  fieldName : String
  fieldType : String
  mappedValue : String
  confidence : ℚ
  extractedFrom : String
deriving DecidableEq, Repr

/-- `ConfidenceCalculator.calculateOverallConfidence(mappings)`. -/
def calculateOverallConfidence (mappings : List Mapping) : ℚ :=
  if mappings.length = 0 then 0
  else (mappings.foldl (fun s m => s + m.confidence) 0) / (mappings.length : ℚ)

/-! ## AIProcessor.getTypeCompatibility (`background.js` 535-579) -/

/-- The declared types that appear as keys of the `compatibility` object. -/
def compatKeys : List String :=
  ["email", "tel", "text", "textarea", "number", "url", "date", "input"]

/-- `compatibility[t][d]`: the explicit per-dataType entries of the table. -/
def compatLookup (t d : String) : Option ℚ :=
  if t = "email" then
    if d = "email" then some 1.0 else if d = "fullName" then some 0.3 else none
  else if t = "tel" then
    if d = "phone" then some 1.0 else if d = "fax" then some 0.9
    else if d = "npiNumber" then some 0.7 else if d = "licenseNumber" then some 0.6
    else none
  else if t = "number" then
    if d = "zipCode" then some 1.0 else if d = "npiNumber" then some 0.9
    else if d = "licenseNumber" then some 0.8 else if d = "taxId" then some 0.8
    else if d = "deaNumber" then some 0.7 else none
  else if t = "url" then
    if d = "website" then some 1.0 else if d = "email" then some 0.3 else none
  else if t = "textarea" then
    if d = "address" then some 1.0 else if d = "specialty" then some 0.9 else none
  else none

/-- `compatibility[t]['*']`: the wildcard entry of each row. -/
def compatStar (t : String) : Option ℚ :=
  if t = "text" then some 0.9 else if t = "textarea" then some 0.7
  else if t = "date" then some 0.2 else if t = "input" then some 0.8 else none

/-- `AIProcessor.getTypeCompatibility(formFieldType, dataType)`.  The source
computes `fieldCompat = compatibility[formFieldType] || compatibility['input']`;
since the `input` row always exists, the subsequent `if (!fieldCompat) return 0.6`
branch is unreachable.  Then `fieldCompat[dataType] || fieldCompat['*'] || 0.4`. -/
def getTypeCompatibility (formFieldType dataType : String) : ℚ :=
  let t := if compatKeys.contains formFieldType then formFieldType else "input"
  ((compatLookup t dataType).orElse (fun _ => compatStar t)).getD 0.4

/-! ## LearningSystem.extractCommonPatterns (`background.js` 686-712) -/

/-- One entry of the `commonPatterns` list:
`{ type: 'prefix', pattern, frequency }`. -/
structure CommonPat where
  ptype : String
  pat : String
  frequency : Nat
deriving DecidableEq, Repr

/-- `(obj[k] || 0) + 1` on a JS object modelled as an insertion-ordered
association list (all keys in the claims' inputs are non-numeric strings,
for which JS preserves insertion order). -/
def bumpTally (t : List (String × Nat)) (k : String) : List (String × Nat) :=
  if (t.lookup k).isSome then
    t.map (fun p => if p.1 = k then (p.1, p.2 + 1) else p)
  else t ++ [(k, 1)]

/-- `LearningSystem.extractCommonPatterns(values)`.  The source tallies both
3-character prefixes and 3-character suffixes of the values of length > 3,
but only the prefix tally is ever pushed onto the result list: the suffix
tally `sfx` below is computed and then discarded, exactly as in the source. -/
def extractCommonPatterns (values : List String) : List CommonPat :=
  let tallies := values.foldl
    (fun (acc : List (String × Nat) × List (String × Nat)) v =>
      if v.length > 3 then
        (bumpTally acc.1 (String.mk (v.toList.take 3)),
         bumpTally acc.2 (String.mk (v.toList.drop (v.length - 3))))
      else acc)
    ([], [])
  let sfx := tallies.2
  let _ := sfx
  (tallies.1.filter (fun p => decide (p.2 ≥ 2))).map
    (fun p => ⟨"prefix", p.1, p.2⟩)

/-- `LearningSystem.updateSuccessPatterns` recomputes `commonPatterns` from
the accepted values only once at least 3 of them exist. -/
def updatedCommonPatterns (successfulValues : List String) : List CommonPat :=
  if successfulValues.length ≥ 3 then extractCommonPatterns successfulValues
  else []

/-! ## AIProcessor: matching (`background.js` 385-533) -/

/-- An extracted value as produced by `extractStructuredData`: value,
extraction-time confidence, pattern identifier and method. -/
structure ExtractedValue where
  value : String
  confidence : ℚ
  patt : String
  method : String
deriving DecidableEq, Repr

/-- A form field descriptor as consumed by `findBestMatch`.  Absent JS
properties (`label`, `context`, `searchText`, `fieldCategory` may be
missing/empty) are modelled as the empty string, which the source treats as
falsy in exactly the places mirrored below. -/
structure FormField where
  id : String
  name : String
  ftype : String
  label : String
  context : String
  searchText : String
  fieldCategory : String
deriving DecidableEq, Repr

/-- The keyword table of `calculateFieldMatchScore`. -/
def keywordTable : List (String × List String) :=
  [("principalInvestigator", ["investigator", "pi", "principal", "doctor", "dr", "physician", "md", "phd"]),
   ("firstName", ["first", "fname", "given", "forename"]),
   ("lastName", ["last", "lname", "surname", "family", "lastname"]),
   ("fullName", ["name", "fullname", "contact", "person", "individual"]),
   ("phone", ["phone", "tel", "telephone", "contact", "mobile", "cell", "number"]),
   ("email", ["email", "mail", "contact", "@"]),
   ("fax", ["fax", "facsimile"]),
   ("address", ["address", "street", "location", "addr", "avenue", "road", "drive", "lane"]),
   ("city", ["city", "town", "municipality"]),
   ("state", ["state", "province", "region"]),
   ("zipCode", ["zip", "postal", "code", "postcode"]),
   ("country", ["country", "nation"]),
   ("institutionName", ["institution", "hospital", "center", "clinic", "organization", "org", "company", "university", "college"]),
   ("department", ["department", "dept", "division", "unit", "section"]),
   ("coordinator", ["coordinator", "manager", "admin", "assistant"]),
   ("licenseNumber", ["license", "licence", "lic", "permit", "certification", "cert"]),
   ("deaNumber", ["dea", "drug", "enforcement"]),
   ("taxId", ["tax", "ein", "federal", "employer"]),
   ("npiNumber", ["npi", "provider", "national"]),
   ("title", ["title", "position", "role", "job", "designation"]),
   ("specialty", ["specialty", "specialization", "focus", "area"]),
   ("website", ["website", "url", "site", "web", "http"]),
   ("irbContact", ["irb", "review", "board", "ethics", "committee"]),
   ("subInvestigator", ["sub", "co", "associate", "assistant", "secondary"])]

/-- The abbreviation table of `calculateFieldMatchScore`. -/
def abbreviationTable : List (String × List String) :=
  [("firstName", ["fn", "f_name", "firstname"]),
   ("lastName", ["ln", "l_name", "lastname"]),
   ("email", ["e_mail", "email_address", "mail_address"]),
   ("phone", ["ph", "tel_no", "phone_no", "contact_no"]),
   ("address", ["addr", "address_1", "address1", "street_addr"]),
   ("zipCode", ["zip_code", "postal_code", "postcode"]),
   ("institutionName", ["inst", "hosp", "org_name", "company_name"])]

/-- The `categoryMappings` table of `AIProcessor.categoryMatches`. -/
def categoryMappings : List (String × List String) :=
  [("email", ["email"]),
   ("phone", ["phone", "fax"]),
   ("name", ["firstName", "lastName", "fullName", "principalInvestigator"]),
   ("address", ["address", "city", "state", "zipCode", "country"]),
   ("organization", ["institutionName", "department"]),
   ("title", ["title", "specialty"]),
   ("identifier", ["licenseNumber", "deaNumber", "taxId", "npiNumber"])]

/-- `AIProcessor.categoryMatches(fieldCategory, dataType)`. -/
def categoryMatches (fieldCategory dataType : String) : Bool :=
  ((categoryMappings.lookup fieldCategory).getD []).contains dataType

/-- The keyword loop of `calculateFieldMatchScore`: `+0.4` per keyword found
as a substring of the field text, `+0.2` more on a whole-word match. -/
def kwLoop (fieldText : String) (kws : List String) : ℚ :=
  kws.foldl
    (fun sc kw =>
      if strIncludes fieldText kw then
        (sc + 0.4) + (if bWordTest kw.toList fieldText.toList then 0.2 else 0)
      else sc) 0

/-- Score after the exact data-type-name bonus (`+0.6`). -/
def scoreAfterTypeName (fieldText dataType : String) : ℚ :=
  if strIncludes fieldText (lowerStr dataType) then
    kwLoop fieldText ((keywordTable.lookup dataType).getD []) + 0.6
  else kwLoop fieldText ((keywordTable.lookup dataType).getD [])

/-- Score after the abbreviation loop (`+0.3` per abbreviation found). -/
def scoreAfterAbbrevs (fieldText dataType : String) : ℚ :=
  ((abbreviationTable.lookup dataType).getD []).foldl
    (fun sc ab => if strIncludes fieldText ab then sc + 0.3 else sc)
    (scoreAfterTypeName fieldText dataType)

/-- `AIProcessor.calculateFieldMatchScore(fieldText, dataType, fieldType,
fieldCategory)`: the staged score above, multiplied by the type-compatibility
factor, plus the category bonus, clamped by `Math.min(score, 1.0)`. -/
def calculateFieldMatchScore (fieldText dataType fieldType fieldCategory : String) : ℚ :=
  let s4 := scoreAfterAbbrevs fieldText dataType * getTypeCompatibility fieldType dataType
  let s5 := if fieldCategory ≠ "" ∧ categoryMatches fieldCategory dataType then s4 + 0.2
            else s4
  min s5 1

/-- The combined lowercased matching text built at the top of
`findBestMatch`: `` `${fieldName} ${fieldId} ${fieldLabel} ${fieldContext}
${fieldSearchText}` `` (the search text is not lowercased by the source). -/
def fieldTextOf (f : FormField) : String :=
  lowerStr f.name ++ " " ++ lowerStr f.id ++ " " ++
  (if f.label ≠ "" then lowerStr f.label else "") ++ " " ++
  (if f.context ≠ "" then lowerStr f.context else "") ++ " " ++ f.searchText

/-- `formField.fieldCategory || 'general'`. -/
def catOf (f : FormField) : String :=
  if f.fieldCategory = "" then "general" else f.fieldCategory

/-- The per-EntityType score computed inside `findBestMatch`'s loop:
the clamped `calculateFieldMatchScore`, plus `0.3` when the slot category
matches the data type (added after the clamp). -/
def slotScore (f : FormField) (dataType : String) : ℚ :=
  let s := calculateFieldMatchScore (fieldTextOf f) dataType f.ftype (catOf f)
  if categoryMatches (catOf f) dataType then s + 0.3 else s

/-- The best-match record built by `findBestMatch`:
`{ ...data, fieldType: dataType, confidence: score }` (the spread copies the
extracted value's fields and the extraction-time confidence is then
overwritten by the match score). -/
structure BestMatch where
  value : String
  confidence : ℚ
  patt : String
  method : String
  fieldType : String
deriving DecidableEq, Repr

/-- The record `findBestMatch` stores when entry `e` of the extracted data
wins with score `slotScore f e.1`. -/
def mkBestMatch (f : FormField) (e : String × ExtractedValue) : BestMatch :=
  ⟨e.2.value, slotScore f e.1, e.2.patt, e.2.method, e.1⟩

/-- One step of `findBestMatch`'s loop over `Object.entries(extractedData)`:
keep the new entry only when its score beats the running best and exceeds
the `0.15` threshold. -/
def fbmStep (f : FormField) (acc : ℚ × Option BestMatch)
    (e : String × ExtractedValue) : ℚ × Option BestMatch :=
  let score := slotScore f e.1
  if score > acc.1 ∧ score > 0.15 then (score, some (mkBestMatch f e)) else acc

/-- `AIProcessor.findBestMatch(formField, extractedData)`; the extracted
data is an insertion-ordered association list, matching
`Object.entries`' order for the string keys the extractor produces. -/
def findBestMatch (f : FormField) (ext : List (String × ExtractedValue)) :
    Option BestMatch :=
  (ext.foldl (fbmStep f) ((0 : ℚ), (none : Option BestMatch))).2

/-- `AIProcessor.generateFieldMappings(formFields, extractedData)`. -/
def generateFieldMappings (fields : List FormField)
    (ext : List (String × ExtractedValue)) : List Mapping :=
  fields.foldl
    (fun acc f =>
      match findBestMatch f ext with
      | some bm => acc ++ [⟨f.id, f.name, f.ftype, bm.value, bm.confidence, bm.fieldType⟩]
      | none => acc) []

/-! ## FormFiller.buildSearchText (content script, `part_001` 893-913) -/

/-- The element attributes read by `buildSearchText`; `getAttribute` returns
`null` for a missing attribute (`Option`), and the `|| ''` fallbacks are
mirrored in the definition. -/
structure SlotElem where
  name : String
  id : String
  placeholder : String
  className : String
  dataLabel : Option String
  ariaLabel : Option String
  titleAttr : Option String
deriving DecidableEq, Repr

/-- Replace every character outside `[a-z0-9\s]` by a space:
`.replace(/[^a-z0-9\s]/g, ' ')`. -/
def stripNonAlnum (l : List Char) : List Char :=
  l.map (fun c =>
    if ('a' ≤ c ∧ c ≤ 'z') ∨ ('0' ≤ c ∧ c ≤ '9') ∨ isWs c then c else ' ')

/-- Collapse every run of `\s` characters to a single space:
`.replace(/\s+/g, ' ')`. -/
def collapseWs : List Char → List Char
  | [] => []
  | c :: cs =>
      if isWs c then ' ' :: collapseWs (cs.dropWhile isWs)
      else c :: collapseWs cs
termination_by l => l.length
decreasing_by
  · simpa using Nat.lt_succ_of_le (List.dropWhile_sublist isWs (l := cs)).length_le
  · simp

/-- `FormFiller.buildSearchText(element, label, context)`. -/
def buildSearchText (e : SlotElem) (label context : String) : String :=
  let parts : List String :=
    [e.name, e.id, e.placeholder, label, context, e.className,
     e.dataLabel.getD "", e.ariaLabel.getD "", e.titleAttr.getD ""]
  let joined := " ".intercalate
    (parts.filter (fun p => p ≠ "" ∧ (jsTrim p).length > 0))
  String.mk (jsTrimL (collapseWs (stripNonAlnum ((lowerStr joined).toList))))

/-! ## A JS regular-expression model

`extractStructuredData` applies the JS regex literals of `fieldPatterns`
via `String.prototype.match`.  The regexes are modelled as an explicit
syntax tree (`RE`) over character classes (`CC`), with an executable
backtracking matcher producing candidate matches in JS priority order
(greedy quantifiers, leftmost alternatives, leftmost starting position).
The fuel argument bounds `*`-unfoldings; every star in the library consumes
at least one character per iteration, so the generous fuel used below never
cuts a real match short, and the whitespace lemmas proved later hold for
every fuel value. -/

/-- One item of a character class: a single character or an inclusive
range. -/
inductive CCItem where
  | ch (c : Char)
  | rg (lo hi : Char)
deriving DecidableEq, Repr

/-- A (possibly negated) character class. -/
structure CC where
  neg : Bool
  items : List CCItem
deriving DecidableEq, Repr

/-- Toggle ASCII letter case (the JS `i`-flag canonicalisation; every
letter in the library's classes is ASCII). -/
def swapCase (c : Char) : Char :=
  if 'a' ≤ c ∧ c ≤ 'z' then Char.ofNat (c.toNat - 32)
  else if 'A' ≤ c ∧ c ≤ 'Z' then Char.ofNat (c.toNat + 32) else c

/-- Raw membership of a character in a class item list. -/
def memCCRaw (c : Char) (items : List CCItem) : Bool :=
  items.any fun it =>
    match it with
    | .ch d => c = d
    | .rg lo hi => lo ≤ c ∧ c ≤ hi

/-- Class membership under an optional case-insensitivity flag. -/
def memCC (ci : Bool) (c : Char) (cc : CC) : Bool :=
  let base := memCCRaw c cc.items || (ci && memCCRaw (swapCase c) cc.items)
  if cc.neg then !base else base

/-- Regex syntax: empty word, character class, sequencing, alternation,
Kleene star and the (single) capture group.  `x?`, `x+`, `x{n}` and
`x{n,}` are built from these below. -/
inductive RE where
  | eps
  | cls (cc : CC)
  | seq (a b : RE)
  | alt (a b : RE)
  | star (r : RE)
  | grp (r : RE)
deriving DecidableEq, Repr

/-- A single literal character. -/
def lit1 (c : Char) : RE := .cls ⟨false, [.ch c]⟩

/-- A literal string. -/
def strLit (s : String) : RE := (s.toList.map lit1).foldr .seq .eps

/-- Sequence a list of regexes. -/
def cat (l : List RE) : RE := l.foldr .seq .eps

/-- `x?`. -/
def rOpt (r : RE) : RE := .alt r .eps

/-- `x+`. -/
def rPlus (r : RE) : RE := .seq r (.star r)

/-- `x{n}`. -/
def repExact (r : RE) (n : Nat) : RE := cat (List.replicate n r)

/-- `x{n,}`. -/
def repMin (r : RE) (n : Nat) : RE := .seq (repExact r n) (.star r)

/-- All ways (in JS backtracking priority order) to match `r` against a
prefix of `cs`: each result is the remaining suffix together with the text
captured by the innermost-last capture group, if any.  The fuel decreases
at every recursive call (structural recursion, so the kernel can evaluate
concrete matches); the generous fuel supplied by `jsStrMatch` covers every
pattern of the library on any input. -/
def matchHere (ci : Bool) : Nat → RE → List Char →
    List (List Char × Option (List Char))
  | _, .eps, cs => [(cs, none)]
  | _, .cls _, [] => []
  | _, .cls cc, c :: cs => if memCC ci c cc then [(cs, none)] else []
  | 0, .seq _ _, _ => []
  | f + 1, .seq a b, cs =>
      (matchHere ci f a cs).flatMap fun p =>
        (matchHere ci f b p.1).map fun q => (q.1, p.2.orElse fun _ => q.2)
  | 0, .alt _ _, _ => []
  | f + 1, .alt a b, cs => matchHere ci f a cs ++ matchHere ci f b cs
  | 0, .star _, cs => [(cs, none)]
  | f + 1, .star r, cs =>
      ((matchHere ci f r cs).flatMap fun p =>
        if p.1.length < cs.length then
          (matchHere ci f (.star r) p.1).map fun q => (q.1, p.2.orElse fun _ => q.2)
        else []) ++ [(cs, none)]
  | 0, .grp _, _ => []
  | f + 1, .grp r, cs =>
      (matchHere ci f r cs).map fun p => (p.1, some (cs.take (cs.length - p.1.length)))

/-- Scan start positions left to right (JS `String.prototype.match` without
the `g` flag): the first position with a match wins, and the first
(highest-priority) match there is taken.  Returns the matched text
(`match[0]`) and the group capture (`match[1]`). -/
def searchAux (ci : Bool) (r : RE) (fl : Nat) :
    List Char → Option (List Char × Option (List Char))
  | [] =>
      match (matchHere ci fl r []).head? with
      | some p => some ([], p.2)
      | none => none
  | c :: t =>
      match (matchHere ci fl r (c :: t)).head? with
      | some p => some ((c :: t).take ((c :: t).length - p.1.length), p.2)
      | none => searchAux ci r fl t

/-- A JS regex literal: its parsed form, its `.source` text and its
`.flags`. -/
structure JsPattern where
  re : RE
  src : String
  flags : String
deriving DecidableEq, Repr

/-- `pattern.toString()`. -/
def patToString (p : JsPattern) : String := "/" ++ p.src ++ "/" ++ p.flags

/-- `text.match(pattern)`, reduced to the pair (`match[0]`, `match[1]`). -/
def jsStrMatch (p : JsPattern) (s : String) : Option (String × Option String) :=
  (searchAux (p.flags.toList.contains 'i') p.re (64 * (s.toList.length + 4))
      s.toList).map
    fun q => (String.mk q.1, q.2.map String.mk)

/-! ## The pattern library (`AIProcessor.initializeFieldPatterns`,
`background.js` 85-246)

Each JS regex literal is transcribed as its parsed `RE` form together with
its verbatim `.source` and `.flags` strings (braces in sources written via
their escapes). -/

/-- The `\s` class as class items. -/
def wsCI : List CCItem := wsCharsL.map CCItem.ch

/-- `\s`. -/
def ccWs : CC := ⟨false, wsCI⟩

/-- `\d` and `[0-9]`. -/
def ccDigit : CC := ⟨false, [.rg '0' '9']⟩

/-- `[:\s]`. -/
def ccColonWs : CC := ⟨false, .ch ':' :: wsCI⟩

/-- `[^,\n]`. -/
def ccNotCommaNl : CC := ⟨true, [.ch ',', .ch '\n']⟩

/-- `[\d\s\-\.\(\)]` (phone character soup). -/
def ccPhone : CC := ⟨false, .rg '0' '9' :: wsCI ++ [.ch '-', .ch '.', .ch '(', .ch ')']⟩

/-- `[-\.\s]`. -/
def ccPhoneSep : CC := ⟨false, .ch '-' :: .ch '.' :: wsCI⟩

/-- `[a-zA-Z0-9._%+-]` (email local part). -/
def ccEmailLocal : CC :=
  ⟨false, [.rg 'a' 'z', .rg 'A' 'Z', .rg '0' '9', .ch '.', .ch '_', .ch '%', .ch '+', .ch '-']⟩

/-- `[a-zA-Z0-9.-]` (email domain). -/
def ccEmailDom : CC := ⟨false, [.rg 'a' 'z', .rg 'A' 'Z', .rg '0' '9', .ch '.', .ch '-']⟩

/-- `[a-zA-Z]`. -/
def ccAlpha : CC := ⟨false, [.rg 'a' 'z', .rg 'A' 'Z']⟩

/-- `[A-Z]`. -/
def ccUpper : CC := ⟨false, [.rg 'A' 'Z']⟩

/-- `[A-Za-z\s]`. -/
def ccAlphaWs : CC := ⟨false, .rg 'A' 'Z' :: .rg 'a' 'z' :: wsCI⟩

/-- `[A-Z0-9\-]`. -/
def ccLicense : CC := ⟨false, [.rg 'A' 'Z', .rg '0' '9', .ch '-']⟩

/-- `[0-9\-]`. -/
def ccNumDash : CC := ⟨false, [.rg '0' '9', .ch '-']⟩

/-- `[^\s\n]`. -/
def ccNotWsNl : CC := ⟨true, .ch '\n' :: wsCI⟩

/-- `\s*`. -/
def wsStar : RE := .star (.cls ccWs)

/-- `\s+`. -/
def wsPlus : RE := rPlus (.cls ccWs)

/-- `[:\s]*`. -/
def colonWsStar : RE := .star (.cls ccColonWs)

/-- `([^,\n]+)`. -/
def grpVal : RE := .grp (rPlus (.cls ccNotCommaNl))

/-- `kw[:\s]*([^,\n]+)` — the library's most common shape. -/
def keyColonVal (kw : String) : RE := cat [strLit kw, colonWsStar, grpVal]

/-- A case-insensitive `kw[:\s]*([^,\n]+)` pattern with its source text. -/
def kcvPat (kw : String) : JsPattern :=
  ⟨keyColonVal kw, kw ++ "[:\\s]*([^,\\n]+)", "i"⟩

/-- `(\(?[\d\s\-\.\(\)]{10,})` — the captured phone body. -/
def phoneGrp : RE := .grp (cat [rOpt (lit1 '('), repMin (.cls ccPhone) 10])

/-- `kw[:\s]*(\(?[\d\s\-\.\(\)]{10,})`. -/
def phonePat (kw : String) : JsPattern :=
  ⟨cat [strLit kw, colonWsStar, phoneGrp],
   kw ++ "[:\\s]*(\\(?[\\d\\s\\-\\.\\(\\)]\x7b10,\x7d)", "i"⟩

/-- `[a-zA-Z0-9._%+-]+@[a-zA-Z0-9.-]+\.[a-zA-Z]{2,}` — the email body. -/
def emailCore : RE :=
  cat [rPlus (.cls ccEmailLocal), lit1 '@', rPlus (.cls ccEmailDom),
       lit1 '.', repMin (.cls ccAlpha) 2]

/-- The email body's source text. -/
def emailCoreSrc : String :=
  "([a-zA-Z0-9._%+-]+@[a-zA-Z0-9.-]+\\.[a-zA-Z]\x7b2,\x7d)"

/-- `kw[:\s]*(email body)`. -/
def emailPat (kw : String) : JsPattern :=
  ⟨cat [strLit kw, colonWsStar, .grp emailCore], kw ++ "[:\\s]*" ++ emailCoreSrc, "i"⟩

/-- `(?:,\s*[^,\n]+)*` — the address continuation. -/
def addrTail : RE := .star (cat [lit1 ',', wsStar, rPlus (.cls ccNotCommaNl)])

/-- `kw[:\s]*([^,\n]+(?:,\s*[^,\n]+)*)`. -/
def addrPat (kw : String) : JsPattern :=
  ⟨cat [strLit kw, colonWsStar, .grp (cat [rPlus (.cls ccNotCommaNl), addrTail])],
   kw ++ "[:\\s]*([^,\\n]+(?:,\\s*[^,\\n]+)*)", "i"⟩

/-- `(\d{5}(?:-\d{4})?)` — the zip code body. -/
def zipCore : RE :=
  cat [repExact (.cls ccDigit) 5, rOpt (cat [lit1 '-', repExact (.cls ccDigit) 4])]

/-- The zip code body's source text. -/
def zipCoreSrc : String := "(\\d\x7b5\x7d(?:-\\d\x7b4\x7d)?)"

/-- `([A-Z0-9\-]+)`. -/
def licGrp : RE := .grp (rPlus (.cls ccLicense))

/-- `kw[:\s]*([A-Z0-9\-]+)`. -/
def licPat (kw : String) : JsPattern :=
  ⟨cat [strLit kw, colonWsStar, licGrp], kw ++ "[:\\s]*([A-Z0-9\\-]+)", "i"⟩

/-- `([0-9\-]+)`. -/
def numDashGrp : RE := .grp (rPlus (.cls ccNumDash))

/-- `([0-9]+)`. -/
def digGrp : RE := .grp (rPlus (.cls ccDigit))

/-- `word1\s+word2[:\s]*([^,\n]+)`. -/
def twoWordPat (w1 w2 : String) : JsPattern :=
  ⟨cat [strLit w1, wsPlus, strLit w2, colonWsStar, grpVal],
   w1 ++ "\\s+" ++ w2 ++ "[:\\s]*([^,\\n]+)", "i"⟩

/-- The standalone email pattern of the flexible pass (also email pattern
number four). -/
def standaloneEmailPat : JsPattern := ⟨.grp emailCore, emailCoreSrc, ""⟩

/-- The standalone phone pattern of the flexible pass. -/
def standalonePhonePat : JsPattern :=
  ⟨phoneGrp, "(\\(?[\\d\\s\\-\\.\\(\\)]\x7b10,\x7d)", ""⟩

/-- The full `fieldPatterns` table, in the source's property order; within
each entity type the patterns keep their source order (first match wins). -/
def fieldPatternsList : List (String × List JsPattern) :=
  [("principalInvestigator",
    [twoWordPat "principal" "investigator",
     kcvPat "pi",
     ⟨cat [strLit "dr", rOpt (lit1 '.'), wsPlus, grpVal], "dr\\.?\\s+([^,\\n]+)", "i"⟩,
     kcvPat "investigator", kcvPat "physician", kcvPat "doctor"]),
   ("firstName",
    [twoWordPat "first" "name", kcvPat "fname", twoWordPat "given" "name"]),
   ("lastName",
    [twoWordPat "last" "name", kcvPat "lname", kcvPat "surname",
     twoWordPat "family" "name"]),
   ("fullName", [kcvPat "name", kcvPat "contact"]),
   ("phone",
    [phonePat "phone", phonePat "tel", phonePat "telephone", phonePat "mobile",
     phonePat "cell",
     ⟨.grp (cat [lit1 '(', repExact (.cls ccDigit) 3, lit1 ')', wsStar,
        repExact (.cls ccDigit) 3, lit1 '-', repExact (.cls ccDigit) 4]),
      "(\\(\\d\x7b3\x7d\\)\\s*\\d\x7b3\x7d-\\d\x7b4\x7d)", ""⟩,
     ⟨.grp (cat [repExact (.cls ccDigit) 3, rOpt (.cls ccPhoneSep),
        repExact (.cls ccDigit) 3, rOpt (.cls ccPhoneSep),
        repExact (.cls ccDigit) 4]),
      "(\\d\x7b3\x7d[-\\.\\s]?\\d\x7b3\x7d[-\\.\\s]?\\d\x7b4\x7d)", ""⟩]),
   ("email",
    [emailPat "email", emailPat "mail", emailPat "e-mail",
     ⟨.grp emailCore, emailCoreSrc, ""⟩]),
   ("fax", [phonePat "fax", phonePat "facsimile"]),
   ("address",
    [addrPat "address", addrPat "street", addrPat "location",
     ⟨.grp (cat [rPlus (.cls ccDigit), wsPlus, rPlus (.cls ccNotCommaNl), addrTail]),
      "(\\d+\\s+[^,\\n]+(?:,\\s*[^,\\n]+)*)", ""⟩]),
   ("city",
    [kcvPat "city", kcvPat "town",
     ⟨cat [lit1 ',', wsStar, .grp (rPlus (.cls ccAlphaWs)), lit1 ',', wsStar,
        repExact (.cls ccUpper) 2],
      ",\\s*([A-Za-z\\s]+),\\s*[A-Z]\x7b2\x7d", ""⟩,
     ⟨cat [strLit "address", .star (.cls ccNotCommaNl), lit1 ',', wsStar,
        .grp (rPlus (.cls ccNotCommaNl)), lit1 ','],
      "address[^,\\n]*,\\s*([^,\\n]+),", "i"⟩]),
   ("state",
    [⟨cat [strLit "state", colonWsStar,
        .grp (.alt (repExact (.cls ccUpper) 2) (rPlus (.cls ccAlphaWs)))],
      "state[:\\s]*([A-Z]\x7b2\x7d|[A-Za-z\\s]+)", "i"⟩,
     ⟨cat [strLit "province", colonWsStar,
        .grp (.alt (repExact (.cls ccUpper) 2) (rPlus (.cls ccAlphaWs)))],
      "province[:\\s]*([A-Z]\x7b2\x7d|[A-Za-z\\s]+)", "i"⟩,
     ⟨cat [lit1 ',', wsStar, .grp (repExact (.cls ccUpper) 2), wsPlus,
        repExact (.cls ccDigit) 5],
      ",\\s*([A-Z]\x7b2\x7d)\\s+\\d\x7b5\x7d", ""⟩,
     ⟨cat [lit1 ',', wsStar, .grp (rPlus (.cls ccAlphaWs)), wsPlus,
        repExact (.cls ccDigit) 5],
      ",\\s*([A-Za-z\\s]+)\\s+\\d\x7b5\x7d", ""⟩]),
   ("zipCode",
    [⟨cat [strLit "zip", colonWsStar, .grp zipCore], "zip[:\\s]*" ++ zipCoreSrc, "i"⟩,
     ⟨cat [strLit "postal", colonWsStar, .grp zipCore],
      "postal[:\\s]*" ++ zipCoreSrc, "i"⟩,
     ⟨cat [strLit "zip", wsPlus, strLit "code", colonWsStar, .grp zipCore],
      "zip\\s+code[:\\s]*" ++ zipCoreSrc, "i"⟩,
     ⟨.grp zipCore, zipCoreSrc, ""⟩]),
   ("country", [kcvPat "country", kcvPat "nation"]),
   ("institutionName",
    [kcvPat "institution", kcvPat "hospital", kcvPat "center", kcvPat "centre",
     kcvPat "clinic", kcvPat "university", kcvPat "college", kcvPat "organization",
     kcvPat "organisation", kcvPat "company"]),
   ("department",
    [kcvPat "department", kcvPat "dept", kcvPat "division", kcvPat "unit",
     kcvPat "section"]),
   ("irbContact",
    [kcvPat "irb",
     ⟨cat [strLit "institutional", wsPlus, strLit "review", wsPlus, strLit "board",
        colonWsStar, grpVal],
      "institutional\\s+review\\s+board[:\\s]*([^,\\n]+)", "i"⟩,
     kcvPat "ethics", twoWordPat "review" "board"]),
   ("licenseNumber",
    [licPat "license", licPat "licence",
     ⟨cat [strLit "license", wsPlus, strLit "number", colonWsStar, licGrp],
      "license\\s+number[:\\s]*([A-Z0-9\\-]+)", "i"⟩,
     licPat "lic", licPat "permit"]),
   ("deaNumber",
    [⟨cat [strLit "dea", colonWsStar, licGrp], "dea[:\\s]*([A-Z0-9\\-]+)", "i"⟩,
     ⟨cat [strLit "dea", wsPlus, strLit "number", colonWsStar, licGrp],
      "dea\\s+number[:\\s]*([A-Z0-9\\-]+)", "i"⟩,
     ⟨cat [strLit "drug", wsPlus, strLit "enforcement", colonWsStar, licGrp],
      "drug\\s+enforcement[:\\s]*([A-Z0-9\\-]+)", "i"⟩]),
   ("taxId",
    [⟨cat [strLit "tax", wsPlus, strLit "id", colonWsStar, numDashGrp],
      "tax\\s+id[:\\s]*([0-9\\-]+)", "i"⟩,
     ⟨cat [strLit "ein", colonWsStar, numDashGrp], "ein[:\\s]*([0-9\\-]+)", "i"⟩,
     ⟨cat [strLit "federal", wsPlus, strLit "id", colonWsStar, numDashGrp],
      "federal\\s+id[:\\s]*([0-9\\-]+)", "i"⟩,
     ⟨cat [strLit "tax", wsPlus, strLit "number", colonWsStar, numDashGrp],
      "tax\\s+number[:\\s]*([0-9\\-]+)", "i"⟩]),
   ("npiNumber",
    [⟨cat [strLit "npi", colonWsStar, digGrp], "npi[:\\s]*([0-9]+)", "i"⟩,
     ⟨cat [strLit "npi", wsPlus, strLit "number", colonWsStar, digGrp],
      "npi\\s+number[:\\s]*([0-9]+)", "i"⟩,
     ⟨cat [strLit "national", wsPlus, strLit "provider", colonWsStar, digGrp],
      "national\\s+provider[:\\s]*([0-9]+)", "i"⟩]),
   ("coordinator",
    [kcvPat "coordinator", twoWordPat "study" "coordinator",
     twoWordPat "research" "coordinator", twoWordPat "clinical" "coordinator",
     twoWordPat "trial" "coordinator"]),
   ("subInvestigator",
    [⟨cat [strLit "sub", colonWsStar, strLit "investigator", colonWsStar, grpVal],
      "sub[:\\s]*investigator[:\\s]*([^,\\n]+)", "i"⟩,
     ⟨cat [strLit "co", colonWsStar, strLit "investigator", colonWsStar, grpVal],
      "co[:\\s]*investigator[:\\s]*([^,\\n]+)", "i"⟩,
     ⟨cat [strLit "associate", colonWsStar, strLit "investigator", colonWsStar, grpVal],
      "associate[:\\s]*investigator[:\\s]*([^,\\n]+)", "i"⟩,
     ⟨cat [strLit "assistant", colonWsStar, strLit "investigator", colonWsStar, grpVal],
      "assistant[:\\s]*investigator[:\\s]*([^,\\n]+)", "i"⟩]),
   ("title",
    [kcvPat "title", kcvPat "position", kcvPat "role", kcvPat "designation"]),
   ("website",
    [⟨cat [strLit "website", colonWsStar, .grp (rPlus (.cls ccNotWsNl))],
      "website[:\\s]*([^\\s\\n]+)", "i"⟩,
     ⟨cat [strLit "url", colonWsStar, .grp (rPlus (.cls ccNotWsNl))],
      "url[:\\s]*([^\\s\\n]+)", "i"⟩,
     ⟨.grp (cat [strLit "http", rOpt (lit1 's'), strLit "://", rPlus (.cls ccNotWsNl)]),
      "(https?:\\/\\/[^\\s\\n]+)", "i"⟩]),
   ("specialty",
    [kcvPat "specialty", kcvPat "specialization", kcvPat "focus"])]

/-! ## AIProcessor.extractStructuredData (`background.js` 259-383) -/

/-- The strict pass's inner pattern loop: try the patterns in order, build
an `ExtractedValue` from the first match (`break`), trimming `match[1]`
when it is truthy and `match[0]` otherwise. -/
def tryPatterns (text : String) : List JsPattern → Option ExtractedValue
  | [] => none
  | p :: ps =>
      match jsStrMatch p text with
      | some r =>
          some ⟨(if (r.2.getD "") ≠ "" then jsTrim (r.2.getD "") else jsTrim r.1),
                calculatePatternConfidence p.src p.flags r.2,
                patToString p, "regex"⟩
      | none => tryPatterns text ps

/-- The strict pass of `extractStructuredData`: one optional value per
entity type, in the table's property order (the `extracted` object's
insertion order). -/
def strictExtract (text : String) : List (String × ExtractedValue) :=
  fieldPatternsList.filterMap
    (fun pr => (tryPatterns text pr.2).map (fun v => (pr.1, v)))

/-- `text.split('\n')` over character lists (JS keeps empty pieces). -/
def splitNlL : List Char → List (List Char)
  | [] => [[]]
  | c :: cs =>
      if c = '\n' then [] :: splitNlL cs
      else
        match splitNlL cs with
        | [] => [[c]]
        | h :: t => (c :: h) :: t

/-- Group 2 of `/^([^:]+):\s*(.+)$/` applied to the text after the first
colon: the greedy `\s*` leaves the longest suffix not starting with
whitespace; when that suffix is empty the regex backtracks to a single
trailing whitespace character, and `.`/`$` exclude line terminators. -/
def colonGroup2 (rest : List Char) : Option (List Char) :=
  let v := rest.dropWhile isWs
  if v.isEmpty then
    match rest.getLast? with
    | some c => if isLineTerm c then none else some [c]
    | none => none
  else if v.all (fun c => !isLineTerm c) then some v else none

/-- `line.match(/^([^:]+):\s*(.+)$/)` reduced to (group 1, group 2): the
key is the non-empty text before the first colon. -/
def jsColonMatch (line : List Char) : Option (List Char × List Char) :=
  let k := line.takeWhile (fun c => c ≠ ':')
  if k.length = line.length then none
  else if k.isEmpty then none
  else (colonGroup2 (line.drop (k.length + 1))).map (fun v => (k, v))

/-- The alias table of `AIProcessor.getFieldMapping`. -/
def aliasTable : List (String × String) :=
  [("name", "fullName"), ("full name", "fullName"), ("contact name", "fullName"),
   ("first name", "firstName"), ("last name", "lastName"),
   ("email", "email"), ("e-mail", "email"), ("mail", "email"),
   ("phone", "phone"), ("telephone", "phone"), ("tel", "phone"),
   ("mobile", "phone"), ("cell", "phone"), ("fax", "fax"),
   ("address", "address"), ("street", "address"), ("location", "address"),
   ("city", "city"), ("state", "state"), ("zip", "zipCode"),
   ("postal", "zipCode"), ("country", "country"),
   ("institution", "institutionName"), ("hospital", "institutionName"),
   ("organization", "institutionName"), ("company", "institutionName"),
   ("department", "department"), ("dept", "department"),
   ("title", "title"), ("position", "title"), ("role", "title"),
   ("coordinator", "coordinator"), ("investigator", "principalInvestigator"),
   ("pi", "principalInvestigator"), ("doctor", "principalInvestigator"),
   ("license", "licenseNumber"), ("dea", "deaNumber"),
   ("tax id", "taxId"), ("ein", "taxId"), ("npi", "npiNumber"),
   ("website", "website"), ("url", "website"), ("specialty", "specialty")]

/-- `AIProcessor.getFieldMapping(key)`: `mappings[key] || null`. -/
def getFieldMapping (key : String) : Option String := aliasTable.lookup key

/-- The `key: value` extraction of the line loop: trim and lowercase the
key, trim the value, bound its length, map the key through the alias table,
and fill only an entity type not yet populated. -/
def flexColonStep (ext0 : List (String × ExtractedValue)) (line : List Char) :
    List (String × ExtractedValue) :=
  match jsColonMatch line with
  | some kv =>
      let key := String.mk ((jsTrimL kv.1).map Char.toLower)
      let value := String.mk (jsTrimL kv.2)
      if value.length > 0 ∧ value.length < 200 then
        match getFieldMapping key with
        | some fm =>
            if (ext0.lookup fm).isNone then
              ext0 ++ [(fm, (⟨value, 0.7, "flexible_colon", "flexible"⟩ : ExtractedValue))]
            else ext0
        | none => ext0
      else ext0
  | none => ext0

/-- The standalone email fill of the line loop. -/
def flexEmailStep (ext1 : List (String × ExtractedValue)) (line : List Char) :
    List (String × ExtractedValue) :=
  if (ext1.lookup "email").isNone then
    match jsStrMatch standaloneEmailPat (String.mk line) with
    | some r =>
        ext1 ++ [("email", (⟨r.2.getD "", 0.9, "standalone_email", "flexible"⟩ : ExtractedValue))]
    | none => ext1
  else ext1

/-- The standalone phone fill of the line loop (`replace(/\D/g, '')` counts
the digits of the captured run). -/
def flexPhoneStep (ext2 : List (String × ExtractedValue)) (line : List Char) :
    List (String × ExtractedValue) :=
  if (ext2.lookup "phone").isNone then
    match jsStrMatch standalonePhonePat (String.mk line) with
    | some r =>
        if ((r.2.getD "").toList.filter (fun c => '0' ≤ c ∧ c ≤ '9')).length ≥ 10 then
          ext2 ++ [("phone", (⟨r.2.getD "", 0.8, "standalone_phone", "flexible"⟩ : ExtractedValue))]
        else ext2
    | none => ext2
  else ext2

/-- The body of `extractFlexiblePatterns`' line loop: the `key: value`
extraction, then the standalone email fill, then the standalone phone fill,
each only into an entity type not yet populated at that point. -/
def flexLine (ext0 : List (String × ExtractedValue)) (line : List Char) :
    List (String × ExtractedValue) :=
  flexPhoneStep (flexEmailStep (flexColonStep ext0 line) line) line

/-- `AIProcessor.extractFlexiblePatterns(text, extracted)`: split into
trimmed non-empty lines and run the line loop over the accumulated map. -/
def extractFlexiblePatterns (text : String)
    (ext : List (String × ExtractedValue)) : List (String × ExtractedValue) :=
  let lines := ((splitNlL text.toList).map jsTrimL).filter (fun l => l.length > 0)
  lines.foldl flexLine ext

/-- `AIProcessor.extractStructuredData(unstructuredData)`: the strict
pattern pass followed by the flexible pass. -/
def extractStructuredData (text : String) : List (String × ExtractedValue) :=
  extractFlexiblePatterns text (strictExtract text)

/-- Whether some `\s` character can satisfy a class. -/
def clsHitsWs (cc : CC) : Bool := wsCharsL.any fun c => memCC true c cc

/-- Syntactic check: every string the regex accepts contains at least one
character outside `\s`. -/
def needsNonWs : RE → Bool
  | .eps => false
  | .cls cc => !clsHitsWs cc
  | .seq a b => needsNonWs a || needsNonWs b
  | .alt a b => needsNonWs a && needsNonWs b
  | .star _ => false
  | .grp r => needsNonWs r

/-! ## Helper lemmas -/

/-- A left fold whose step never decreases the accumulator is bounded below
by its start value. -/
lemma le_foldl_of_le_step {α : Type} (f : ℚ → α → ℚ) (hf : ∀ x a, x ≤ f x a) :
    ∀ (l : List α) (x : ℚ), x ≤ l.foldl f x := by
  intro l
  induction l with
  | nil => intro x; exact le_rfl
  | cons a t ih => intro x; exact le_trans (hf x a) (ih (f x a))

/-- Every explicit entry of the type-compatibility table is nonnegative. -/
lemma compatLookup_nonneg {t d : String} {q : ℚ} (h : compatLookup t d = some q) :
    0 ≤ q := by
  unfold compatLookup at h
  repeat' split at h
  all_goals first
    | (injection h with h; subst h; norm_num)
    | (injection h)

/-- Every wildcard entry of the type-compatibility table is nonnegative. -/
lemma compatStar_nonneg {t : String} {q : ℚ} (h : compatStar t = some q) : 0 ≤ q := by
  unfold compatStar at h
  repeat' split at h
  all_goals first
    | (injection h with h; subst h; norm_num)
    | (injection h)

/-- Every value of the type-compatibility table is nonnegative. -/
lemma getTypeCompatibility_nonneg (t d : String) : 0 ≤ getTypeCompatibility t d := by
  simp only [getTypeCompatibility]
  rcases hl : compatLookup (if compatKeys.contains t then t else "input") d with _ | q
  · rcases hs : compatStar (if compatKeys.contains t then t else "input") with _ | q
    · simp only [hl, hs, Option.orElse, Option.getD]
      norm_num
    · simp only [hl, hs, Option.orElse, Option.getD]
      exact compatStar_nonneg hs
  · simp only [hl, Option.orElse, Option.getD]
    exact compatLookup_nonneg hl

/-- The keyword loop produces a nonnegative score. -/
lemma kwLoop_nonneg (fieldText : String) (kws : List String) :
    0 ≤ kwLoop fieldText kws := by
  refine le_foldl_of_le_step _ (fun x a => ?_) kws 0
  split
  · split <;> linarith
  · exact le_rfl

/-- The staged score before the type-compatibility factor is nonnegative. -/
lemma scoreAfterAbbrevs_nonneg (fieldText dataType : String) :
    0 ≤ scoreAfterAbbrevs fieldText dataType := by
  have h1 := kwLoop_nonneg fieldText ((keywordTable.lookup dataType).getD [])
  have h2 : 0 ≤ scoreAfterTypeName fieldText dataType := by
    unfold scoreAfterTypeName
    split <;> linarith
  refine le_trans h2 (le_foldl_of_le_step _ (fun x a => ?_) _ _)
  split <;> linarith

/-- The clamped field-match score lies in `[0, 1]`. -/
lemma calculateFieldMatchScore_bounds (fieldText dataType fieldType fieldCategory : String) :
    0 ≤ calculateFieldMatchScore fieldText dataType fieldType fieldCategory ∧
    calculateFieldMatchScore fieldText dataType fieldType fieldCategory ≤ 1 := by
  have h4 := mul_nonneg (scoreAfterAbbrevs_nonneg fieldText dataType)
    (getTypeCompatibility_nonneg fieldType dataType)
  unfold calculateFieldMatchScore
  refine ⟨le_min ?_ (by norm_num), min_le_right _ _⟩
  split <;> linarith

/-- The boosted per-entity score of `findBestMatch` is at most `1.3`, and
at most `1` when the slot category does not match the entity type. -/
lemma slotScore_le (f : FormField) (dataType : String) :
    slotScore f dataType ≤ 13/10 ∧
    (categoryMatches (catOf f) dataType = false → slotScore f dataType ≤ 1) := by
  have hb := calculateFieldMatchScore_bounds (fieldTextOf f) dataType f.ftype (catOf f)
  unfold slotScore
  constructor
  · split
    · linarith [hb.2]
    · linarith [hb.2]
  · intro hcat
    rw [hcat]
    simpa using hb.2

/-- Fold invariant of `findBestMatch`: any stored best match clears the
`0.15` threshold and is the `mkBestMatch` record of an already-processed
entry of the extracted data. -/
lemma fbm_foldl_inv (f : FormField) :
    ∀ (l : List (String × ExtractedValue)) (acc : ℚ × Option BestMatch)
      (Q : (String × ExtractedValue) → Prop),
      (∀ bm, acc.2 = some bm →
        (0.15 : ℚ) < bm.confidence ∧ ∃ e, Q e ∧ bm = mkBestMatch f e) →
      ∀ bm, (l.foldl (fbmStep f) acc).2 = some bm →
        (0.15 : ℚ) < bm.confidence ∧ ∃ e, (Q e ∨ e ∈ l) ∧ bm = mkBestMatch f e := by
  intro l
  induction l with
  | nil =>
      intro acc Q hacc bm h
      obtain ⟨h1, e, hQ, he⟩ := hacc bm h
      exact ⟨h1, e, Or.inl hQ, he⟩
  | cons a t ih =>
      intro acc Q hacc bm h
      rw [List.foldl_cons] at h
      have hstep : ∀ bm, (fbmStep f acc a).2 = some bm →
          (0.15 : ℚ) < bm.confidence ∧ ∃ e, (Q e ∨ e = a) ∧ bm = mkBestMatch f e := by
        intro bm hb
        simp only [fbmStep] at hb
        split at hb
        · next hcond =>
            injection hb with hb
            subst hb
            exact ⟨hcond.2, a, Or.inr rfl, rfl⟩
        · obtain ⟨h1, e, hQ, he⟩ := hacc bm hb
          exact ⟨h1, e, Or.inl hQ, he⟩
      obtain ⟨h1, e, hQ, he⟩ := ih (fbmStep f acc a) (fun e => Q e ∨ e = a) hstep bm h
      refine ⟨h1, e, ?_, he⟩
      rcases hQ with (hq | heq) | hmem
      · exact Or.inl hq
      · exact Or.inr (by simp [heq])
      · exact Or.inr (List.mem_cons_of_mem _ hmem)

/-- When every entry's boosted score is at or below the threshold, the
`findBestMatch` fold never updates its accumulator. -/
lemma fbm_foldl_low (f : FormField) :
    ∀ (l : List (String × ExtractedValue)) (acc : ℚ × Option BestMatch),
      (∀ e ∈ l, slotScore f e.1 ≤ 0.15) → l.foldl (fbmStep f) acc = acc := by
  intro l
  induction l with
  | nil => intro acc _; rfl
  | cons a t ih =>
      intro acc hl
      rw [List.foldl_cons]
      have ha : slotScore f a.1 ≤ 0.15 := hl a (by simp)
      have hstep : fbmStep f acc a = acc := by
        simp only [fbmStep]
        split
        · next hcond => exact absurd hcond.2 (by linarith)
        · rfl
      rw [hstep]
      exact ih acc (fun e he => hl e (List.mem_cons_of_mem _ he))

/-- Every mapping produced by `generateFieldMappings` comes from a form
field whose `findBestMatch` succeeded, and copies that best match's value,
confidence and source entity type. -/
lemma gfm_foldl_mem (ext : List (String × ExtractedValue)) :
    ∀ (flds : List FormField) (acc : List Mapping),
      ∀ m ∈ flds.foldl
        (fun acc f =>
          match findBestMatch f ext with
          | some bm => acc ++ [⟨f.id, f.name, f.ftype, bm.value, bm.confidence, bm.fieldType⟩]
          | none => acc) acc,
        m ∈ acc ∨ ∃ g ∈ flds, ∃ b, findBestMatch g ext = some b ∧
          m = ⟨g.id, g.name, g.ftype, b.value, b.confidence, b.fieldType⟩ := by
  intro flds
  induction flds with
  | nil => intro acc m hm; exact Or.inl hm
  | cons a t ih =>
      intro acc m hm
      rw [List.foldl_cons] at hm
      rcases ih _ m hm with hacc | ⟨g, hg, b, hb, hm2⟩
      · rcases hfb : findBestMatch a ext with _ | b
        · rw [hfb] at hacc
          exact Or.inl hacc
        · rw [hfb] at hacc
          rcases List.mem_append.mp hacc with h1 | h2
          · exact Or.inl h1
          · refine Or.inr ⟨a, by simp, b, hfb, ?_⟩
            simpa using h2
      · exact Or.inr ⟨g, List.mem_cons_of_mem _ hg, b, hb, hm2⟩

/-- Summing mapping confidences with a left fold equals the start value plus
the list sum. -/
lemma foldl_conf_sum : ∀ (l : List Mapping) (s : ℚ),
    l.foldl (fun a m => a + m.confidence) s = s + (l.map Mapping.confidence).sum := by
  intro l
  induction l with
  | nil => intro s; simp
  | cons a t ih => intro s; simp [ih]; ring

/-! ## Whitespace lemmas: no library pattern matches all-whitespace text -/

/-- Case toggling fixes every whitespace character. -/
lemma ws_swapCase : ∀ c ∈ wsCharsL, swapCase c = c := by decide

/-- Whitespace membership in a class does not depend on the case flag. -/
lemma memCC_ws_eq (ci : Bool) (c : Char) (cc : CC) (h : c ∈ wsCharsL) :
    memCC ci c cc = memCC true c cc := by
  unfold memCC
  rw [ws_swapCase c h]
  cases hraw : memCCRaw c cc.items <;> cases ci <;> simp [hraw]

/-- `isWs` is membership in the whitespace list. -/
lemma isWs_mem {c : Char} (h : isWs c = true) : c ∈ wsCharsL := by
  simpa [isWs, List.contains] using h

/-- Every candidate's remainder is a suffix of the input. -/
lemma matchHere_suffix (ci : Bool) :
    ∀ (f : Nat) (r : RE) (cs : List Char) p,
      p ∈ matchHere ci f r cs → p.1 <:+ cs := by
  intro f r cs
  induction f, r, cs using matchHere.induct ci with
  | case1 x cs =>
      intro p hp
      simp only [matchHere, List.mem_singleton] at hp
      subst hp
      exact List.suffix_refl cs
  | case2 x cc =>
      intro p hp
      simp [matchHere] at hp
  | case3 x cc c cs hmem =>
      intro p hp
      simp only [matchHere, if_pos hmem, List.mem_singleton] at hp
      subst hp
      exact List.suffix_cons c cs
  | case4 x cc c cs hmem =>
      intro p hp
      simp [matchHere, hmem] at hp
  | case5 a b x =>
      intro p hp
      simp [matchHere] at hp
  | case6 f a b cs ih1 ih2 =>
      intro p hp
      simp only [matchHere] at hp
      rcases List.mem_flatMap.mp hp with ⟨q, hq, hp2⟩
      rcases List.mem_map.mp hp2 with ⟨q2, hq2, hpe⟩
      have h1 : q2.1 <:+ q.1 := ih2 q q2 hq2
      have h2 : q.1 <:+ cs := ih1 q hq
      rw [← hpe]
      exact h1.trans h2
  | case7 a b x =>
      intro p hp
      simp [matchHere] at hp
  | case8 f a b cs ih1 ih2 =>
      intro p hp
      simp only [matchHere] at hp
      rcases List.mem_append.mp hp with h | h
      · exact ih1 p h
      · exact ih2 p h
  | case9 r cs =>
      intro p hp
      simp only [matchHere, List.mem_singleton] at hp
      subst hp
      exact List.suffix_refl cs
  | case10 f r cs ih1 ih2 =>
      intro p hp
      simp only [matchHere] at hp
      rcases List.mem_append.mp hp with h | h
      · rcases List.mem_flatMap.mp h with ⟨q, hq, hp2⟩
        split at hp2
        · rcases List.mem_map.mp hp2 with ⟨q2, hq2, hpe⟩
          have h1 : q2.1 <:+ q.1 := ih2 q q2 hq2
          have h2 : q.1 <:+ cs := ih1 q hq
          rw [← hpe]
          exact h1.trans h2
        · simp at hp2
      · simp only [List.mem_singleton] at h
        subst h
        exact List.suffix_refl cs
  | case11 r x =>
      intro p hp
      simp [matchHere] at hp
  | case12 f r cs ih =>
      intro p hp
      simp only [matchHere] at hp
      rcases List.mem_map.mp hp with ⟨q, hq, hpe⟩
      rw [← hpe]
      exact ih q hq

/-- On all-whitespace input, a regex that needs a non-whitespace character
has no candidate match at any fuel. -/
lemma matchHere_ws_nil (ci : Bool) :
    ∀ (f : Nat) (r : RE) (cs : List Char),
      needsNonWs r = true → cs.all isWs = true → matchHere ci f r cs = [] := by
  intro f r cs
  induction f, r, cs using matchHere.induct ci with
  | case1 x cs =>
      intro h _
      simp [needsNonWs] at h
  | case2 x cc =>
      intro _ _
      simp [matchHere]
  | case3 x cc c cs hmem =>
      intro hneed hall
      exfalso
      have hc : c ∈ wsCharsL := isWs_mem ((List.all_eq_true.mp hall) c (by simp))
      have h1 : memCC true c cc = true := by
        rw [← memCC_ws_eq ci c cc hc]
        exact hmem
      have h2 : clsHitsWs cc = true := by
        unfold clsHitsWs
        exact List.any_eq_true.mpr ⟨c, hc, h1⟩
      simp [needsNonWs, h2] at hneed
  | case4 x cc c cs hmem =>
      intro _ _
      simp [matchHere, hmem]
  | case5 a b x =>
      intro _ _
      simp [matchHere]
  | case6 f a b cs ih1 ih2 =>
      intro hneed hall
      simp only [needsNonWs, Bool.or_eq_true] at hneed
      simp only [matchHere]
      rcases hneed with hna | hnb
      · rw [ih1 hna hall]
        rfl
      · refine List.eq_nil_iff_forall_not_mem.mpr ?_
        intro p hp
        rcases List.mem_flatMap.mp hp with ⟨q, hq, hp2⟩
        have hqws : q.1.all isWs = true := by
          refine List.all_eq_true.mpr ?_
          intro x hx
          exact (List.all_eq_true.mp hall) x
            ((matchHere_suffix ci f a cs q hq).subset hx)
        rw [ih2 q hnb hqws] at hp2
        simp at hp2
  | case7 a b x =>
      intro _ _
      simp [matchHere]
  | case8 f a b cs ih1 ih2 =>
      intro hneed hall
      simp only [needsNonWs, Bool.and_eq_true] at hneed
      simp only [matchHere]
      rw [ih1 hneed.1 hall, ih2 hneed.2 hall]
      rfl
  | case9 r cs =>
      intro h _
      simp [needsNonWs] at h
  | case10 f r cs ih1 ih2 =>
      intro h _
      simp [needsNonWs] at h
  | case11 r x =>
      intro hneed _
      simp [matchHere]
  | case12 f r cs ih =>
      intro hneed hall
      simp only [matchHere]
      rw [ih (by simpa [needsNonWs] using hneed) hall]
      rfl

/-- On all-whitespace input, the left-to-right scan finds nothing. -/
lemma searchAux_ws_none (ci : Bool) (r : RE) (fl : Nat)
    (h : needsNonWs r = true) :
    ∀ cs : List Char, cs.all isWs = true → searchAux ci r fl cs = none := by
  intro cs
  induction cs with
  | nil =>
      intro _
      simp [searchAux, matchHere_ws_nil ci fl r [] h rfl]
  | cons c t ih =>
      intro hall
      have hall' : t.all isWs = true := by
        refine List.all_eq_true.mpr fun x hx =>
          (List.all_eq_true.mp hall) x (List.mem_cons_of_mem _ hx)
      simp [searchAux, matchHere_ws_nil ci fl r (c :: t) h hall, ih hall']

/-- On all-whitespace input, `text.match(pattern)` is `null` for any
pattern that needs a non-whitespace character. -/
lemma jsStrMatch_ws_none (p : JsPattern) (hp : needsNonWs p.re = true)
    (s : String) (hs : s.toList.all isWs = true) : jsStrMatch p s = none := by
  unfold jsStrMatch
  rw [searchAux_ws_none _ _ _ hp s.toList hs]
  rfl

/-- On all-whitespace input, the strict pattern loop extracts nothing. -/
lemma tryPatterns_ws_none (text : String) (hs : text.toList.all isWs = true) :
    ∀ ps : List JsPattern, (∀ p ∈ ps, needsNonWs p.re = true) →
      tryPatterns text ps = none := by
  intro ps
  induction ps with
  | nil => intro _; rfl
  | cons p t ih =>
      intro hall
      unfold tryPatterns
      rw [jsStrMatch_ws_none p (hall p (by simp)) text hs]
      exact ih (fun q hq => hall q (List.mem_cons_of_mem _ hq))

/-- Every pattern in the library requires a non-whitespace character. -/
lemma fieldPatterns_need_nonWs :
    fieldPatternsList.all (fun pr => pr.2.all fun p => needsNonWs p.re) = true := by
  decide

/-- On all-whitespace input, the strict pass yields the empty map. -/
lemma strictExtract_ws_nil (text : String) (hs : text.toList.all isWs = true) :
    strictExtract text = [] := by
  unfold strictExtract
  refine List.eq_nil_iff_forall_not_mem.mpr ?_
  intro x hx
  rcases List.mem_filterMap.mp hx with ⟨pr, hpr, hmap⟩
  rw [tryPatterns_ws_none text hs pr.2 ?_] at hmap
  · simp at hmap
  · intro p hp
    exact List.all_eq_true.mp
      ((List.all_eq_true.mp fieldPatterns_need_nonWs) pr hpr) p hp

/-- Split pieces inherit any all-characters property. -/
lemma splitNlL_all (P : Char → Bool) :
    ∀ cs : List Char, cs.all P = true → ∀ l ∈ splitNlL cs, l.all P = true := by
  intro cs
  induction cs with
  | nil =>
      intro _ l hl
      simp only [splitNlL, List.mem_singleton] at hl
      subst hl
      rfl
  | cons c t ih =>
      intro hall l hl
      have hc : P c = true := (List.all_eq_true.mp hall) c (by simp)
      have ht : t.all P = true := by
        refine List.all_eq_true.mpr fun x hx =>
          (List.all_eq_true.mp hall) x (List.mem_cons_of_mem _ hx)
      by_cases hnl : c = '\n'
      · rw [splitNlL, if_pos hnl] at hl
        rcases List.mem_cons.mp hl with rfl | hl2
        · rfl
        · exact ih ht l hl2
      · rw [splitNlL, if_neg hnl] at hl
        cases hsp : splitNlL t with
        | nil =>
            rw [hsp] at hl
            simp only [List.mem_singleton] at hl
            subst hl
            simp [hc]
        | cons h2 t2 =>
            rw [hsp] at hl
            rcases List.mem_cons.mp hl with rfl | hl2
            · have hh2 : h2.all P = true := ih ht h2 (by rw [hsp]; simp)
              simp [hc, hh2]
            · exact ih ht l (by rw [hsp]; exact List.mem_cons_of_mem _ hl2)

/-- Trimming an all-whitespace list yields the empty list. -/
lemma jsTrimL_ws_nil (l : List Char) (h : l.all isWs = true) : jsTrimL l = [] := by
  unfold jsTrimL
  rw [List.dropWhile_eq_nil_iff.mpr (fun x hx => (List.all_eq_true.mp h) x hx)]
  rfl

/-- On all-whitespace input, the flexible pass sees no lines and leaves the
accumulated map unchanged. -/
lemma extractFlexiblePatterns_ws_id (text : String)
    (hs : text.toList.all isWs = true) (ext : List (String × ExtractedValue)) :
    extractFlexiblePatterns text ext = ext := by
  unfold extractFlexiblePatterns
  have hlines : (((splitNlL text.toList).map jsTrimL).filter
      (fun l => l.length > 0)) = [] := by
    refine List.filter_eq_nil_iff.mpr ?_
    intro l hl
    rcases List.mem_map.mp hl with ⟨piece, hpiece, rfl⟩
    rw [jsTrimL_ws_nil piece (splitNlL_all isWs text.toList hs piece hpiece)]
    simp
  rw [hlines]
  rfl

/-! ## Association-list lemmas for the extraction map -/

/-- A lookup misses exactly when the key is absent. -/
lemma lookup_eq_none_iff {β : Type} :
    ∀ (l : List (String × β)) (k : String), l.lookup k = none ↔ k ∉ l.map Prod.fst := by
  intro l k
  induction l with
  | nil => simp [List.lookup]
  | cons a t ih =>
      rcases a with ⟨a1, b1⟩
      by_cases h : k = a1
      · subst h
        simp [List.lookup]
      · have hb : (k == a1) = false := beq_eq_false_iff_ne.mpr h
        simp [List.lookup, hb, ih, h]

/-- Lookups distribute over append, first list first. -/
lemma lookup_append {β : Type} :
    ∀ (l m : List (String × β)) (k : String),
      (l ++ m).lookup k = ((l.lookup k).orElse fun _ => m.lookup k) := by
  intro l m k
  induction l with
  | nil => simp [List.lookup, Option.orElse]
  | cons a t ih =>
      rcases a with ⟨a1, b1⟩
      by_cases h : k = a1
      · subst h
        simp [List.lookup, Option.orElse]
      · have hb : (k == a1) = false := beq_eq_false_iff_ne.mpr h
        simp [List.lookup, hb, ih]

/-- Skipping a non-matching head in a lookup. -/
lemma lookup_cons_ne {β : Type} (a1 : String) (b1 : β) (t : List (String × β))
    {k : String} (h : (k == a1) = false) :
    ((a1, b1) :: t).lookup k = t.lookup k := by
  simp [List.lookup, h]

/-- Appending a fresh key keeps the key list duplicate-free. -/
lemma snoc_nodup {β : Type} (ext : List (String × β)) (k : String) (v : β)
    (hnone : ext.lookup k = none) (hnd : (ext.map Prod.fst).Nodup) :
    ((ext ++ [(k, v)]).map Prod.fst).Nodup := by
  rw [List.map_append]
  refine List.Nodup.append hnd (by simp) ?_
  intro x hx hx2
  simp only [List.map_cons, List.map_nil, List.mem_singleton] at hx2
  subst hx2
  exact (lookup_eq_none_iff ext x).mp hnone hx

/-- Appending an entry never changes existing lookups. -/
lemma snoc_lookup_pres {β : Type} (ext : List (String × β)) (k : String) (v : β)
    (k2 : String) (v2 : β) (hf : ext.lookup k2 = some v2) :
    (ext ++ [(k, v)]).lookup k2 = some v2 := by
  rw [lookup_append, hf]
  rfl

/-- A lookup in a snoc comes from the front or is the new value. -/
lemma snoc_lookup_back {β : Type} (ext : List (String × β)) (k : String) (v : β)
    (k2 : String) (v2 : β) (h : (ext ++ [(k, v)]).lookup k2 = some v2) :
    ext.lookup k2 = some v2 ∨ v2 = v := by
  rw [lookup_append] at h
  cases hl : ext.lookup k2 with
  | some w =>
      rw [hl] at h
      simp only [Option.orElse, Option.some.injEq] at h
      exact Or.inl (congrArg some h)
  | none =>
      rw [hl] at h
      simp only [Option.orElse] at h
      by_cases hk : k2 = k
      · subst hk
        simp [List.lookup] at h
        exact Or.inr h.symm
      · have hb : (k2 == k) = false := beq_eq_false_iff_ne.mpr hk
        simp [List.lookup, hb] at h

/-- The three flexible-pass steps either keep the map or append one fresh
flexible entry; this bundles the consequences. -/
lemma shape_inv {ext ext2 : List (String × ExtractedValue)}
    (hshape : ext2 = ext ∨ ∃ k v, ext.lookup k = none ∧ ext2 = ext ++ [(k, v)] ∧
      ExtractedValue.method v = "flexible")
    (hnd : (ext.map Prod.fst).Nodup) :
    ((ext2.map Prod.fst).Nodup) ∧
    (∀ k v, ext.lookup k = some v → ext2.lookup k = some v) ∧
    (∀ k v, ext2.lookup k = some v → ext.lookup k = some v ∨
      ExtractedValue.method v = "flexible") := by
  rcases hshape with rfl | ⟨k, v, hn, rfl, hm⟩
  · exact ⟨hnd, fun _ _ h => h, fun _ _ h => Or.inl h⟩
  · refine ⟨snoc_nodup _ _ _ hn hnd,
      fun k2 v2 h => snoc_lookup_pres _ _ _ _ _ h, ?_⟩
    intro k2 v2 h
    rcases snoc_lookup_back _ _ _ _ _ h with h2 | rfl
    · exact Or.inl h2
    · exact Or.inr hm

/-- The colon step keeps the map or appends one fresh flexible entry. -/
lemma flexColonStep_shape (ext : List (String × ExtractedValue)) (line : List Char) :
    flexColonStep ext line = ext ∨
    ∃ k v, ext.lookup k = none ∧ flexColonStep ext line = ext ++ [(k, v)] ∧
      ExtractedValue.method v = "flexible" := by
  unfold flexColonStep
  cases hcm : jsColonMatch line with
  | none => exact Or.inl rfl
  | some kv =>
      dsimp only
      split
      · split
        · split
          · rename_i hnone
            exact Or.inr ⟨_, _, Option.isNone_iff_eq_none.mp hnone, rfl, rfl⟩
          · exact Or.inl rfl
        · exact Or.inl rfl
      · exact Or.inl rfl

/-- The email step keeps the map or appends one fresh flexible entry. -/
lemma flexEmailStep_shape (ext : List (String × ExtractedValue)) (line : List Char) :
    flexEmailStep ext line = ext ∨
    ∃ k v, ext.lookup k = none ∧ flexEmailStep ext line = ext ++ [(k, v)] ∧
      ExtractedValue.method v = "flexible" := by
  unfold flexEmailStep
  by_cases h : (ext.lookup "email").isNone = true
  · rw [if_pos h]
    cases hm : jsStrMatch standaloneEmailPat (String.mk line) with
    | none => exact Or.inl rfl
    | some r => exact Or.inr ⟨"email", _, Option.isNone_iff_eq_none.mp h, rfl, rfl⟩
  · rw [if_neg h]
    exact Or.inl rfl

/-- The phone step keeps the map or appends one fresh flexible entry. -/
lemma flexPhoneStep_shape (ext : List (String × ExtractedValue)) (line : List Char) :
    flexPhoneStep ext line = ext ∨
    ∃ k v, ext.lookup k = none ∧ flexPhoneStep ext line = ext ++ [(k, v)] ∧
      ExtractedValue.method v = "flexible" := by
  unfold flexPhoneStep
  by_cases h : (ext.lookup "phone").isNone = true
  · rw [if_pos h]
    cases hm : jsStrMatch standalonePhonePat (String.mk line) with
    | none => exact Or.inl rfl
    | some r =>
        dsimp only
        by_cases hd :
          ((r.2.getD "").toList.filter (fun c => '0' ≤ c ∧ c ≤ '9')).length ≥ 10
        · rw [if_pos hd]
          exact Or.inr ⟨"phone", _, Option.isNone_iff_eq_none.mp h, rfl, rfl⟩
        · rw [if_neg hd]
          exact Or.inl rfl
  · rw [if_neg h]
    exact Or.inl rfl

/-- One flexible-pass line keeps keys duplicate-free, preserves existing
entries, and adds only `method = "flexible"` entries. -/
lemma flexLine_inv (ext : List (String × ExtractedValue)) (line : List Char)
    (hnd : (ext.map Prod.fst).Nodup) :
    (((flexLine ext line).map Prod.fst).Nodup) ∧
    (∀ k v, ext.lookup k = some v → (flexLine ext line).lookup k = some v) ∧
    (∀ k v, (flexLine ext line).lookup k = some v →
      ext.lookup k = some v ∨ ExtractedValue.method v = "flexible") := by
  have h1 := shape_inv (flexColonStep_shape ext line) hnd
  have h2 := shape_inv (flexEmailStep_shape (flexColonStep ext line) line) h1.1
  have h3 := shape_inv
    (flexPhoneStep_shape (flexEmailStep (flexColonStep ext line) line) line) h2.1
  unfold flexLine
  refine ⟨h3.1, ?_, ?_⟩
  · intro k v h
    exact h3.2.1 k v (h2.2.1 k v (h1.2.1 k v h))
  · intro k v h
    rcases h3.2.2 k v h with h' | hm
    · rcases h2.2.2 k v h' with h'' | hm
      · rcases h1.2.2 k v h'' with h3' | hm
        · exact Or.inl h3'
        · exact Or.inr hm
      · exact Or.inr hm
    · exact Or.inr hm

/-- The whole flexible-pass fold keeps keys duplicate-free, preserves
existing entries, and adds only flexible entries. -/
lemma flex_fold_inv :
    ∀ (lines : List (List Char)) (ext : List (String × ExtractedValue)),
      ((ext.map Prod.fst).Nodup) →
      (((lines.foldl flexLine ext).map Prod.fst).Nodup) ∧
      (∀ k v, ext.lookup k = some v → (lines.foldl flexLine ext).lookup k = some v) ∧
      (∀ k v, (lines.foldl flexLine ext).lookup k = some v →
        ext.lookup k = some v ∨ ExtractedValue.method v = "flexible") := by
  intro lines
  induction lines with
  | nil => intro ext hnd; exact ⟨hnd, fun _ _ h => h, fun _ _ h => Or.inl h⟩
  | cons line t ih =>
      intro ext hnd
      have h1 := flexLine_inv ext line hnd
      have h2 := ih (flexLine ext line) h1.1
      rw [List.foldl_cons]
      refine ⟨h2.1, ?_, ?_⟩
      · intro k v h
        exact h2.2.1 k v (h1.2.1 k v h)
      · intro k v h
        rcases h2.2.2 k v h with h' | hm
        · rcases h1.2.2 k v h' with h'' | hm
          · exact Or.inl h''
          · exact Or.inr hm
        · exact Or.inr hm

/-- The strict pass's keys form a sublist of the pattern table's keys. -/
lemma filterMap_keys_sublist {β γ : Type} (g : β → Option γ) :
    ∀ l : List (String × β),
      ((l.filterMap (fun pr => (g pr.2).map (fun v => (pr.1, v)))).map
        Prod.fst).Sublist (l.map Prod.fst) := by
  intro l
  induction l with
  | nil => simp
  | cons a t ih =>
      rcases a with ⟨a1, b1⟩
      cases hg : g b1 with
      | none => simpa [List.filterMap_cons, hg] using ih.cons a1
      | some v => simpa [List.filterMap_cons, hg] using ih.cons₂ a1

/-- Looking up a key of the table in the strict result runs exactly the
first-match pattern loop of that key. -/
lemma filterMap_lookup {β γ : Type} (g : β → Option γ) :
    ∀ l : List (String × β), ((l.map Prod.fst).Nodup) →
      ∀ ft ps, (ft, ps) ∈ l →
        ((l.filterMap (fun pr => (g pr.2).map (fun v => (pr.1, v)))).lookup ft) = g ps := by
  intro l
  induction l with
  | nil => intro _ ft ps h; simp at h
  | cons a t ih =>
      rcases a with ⟨a1, b1⟩
      intro hnd ft ps hmem
      have hnd1 : (t.map Prod.fst).Nodup := (List.nodup_cons.mp hnd).2
      have hna : a1 ∉ t.map Prod.fst := (List.nodup_cons.mp hnd).1
      rcases List.mem_cons.mp hmem with heq | hmem2
      · injection heq with h1 h2
        subst h1
        subst h2
        cases hg : g ps with
        | some v =>
            simp [List.filterMap_cons, hg, List.lookup]
        | none =>
            simp only [List.filterMap_cons, hg, Option.map_none']
            refine (lookup_eq_none_iff _ _).mpr ?_
            intro hin
            exact hna ((filterMap_keys_sublist g t).subset hin)
      · have hne : ft ≠ a1 := by
          intro h
          subst h
          exact hna (List.mem_map.mpr ⟨(ft, ps), hmem2, rfl⟩)
        have hb : (ft == a1) = false := beq_eq_false_iff_ne.mpr hne
        cases hg : g b1 with
        | some v =>
            simp only [List.filterMap_cons, hg, Option.map_some']
            rw [lookup_cons_ne _ _ _ hb]
            exact ih hnd1 ft ps hmem2
        | none =>
            simp only [List.filterMap_cons, hg, Option.map_none]
            exact ih hnd1 ft ps hmem2

/-- The pattern table's keys are distinct. -/
lemma fieldPatterns_keys_nodup : (fieldPatternsList.map Prod.fst).Nodup := by
  decide

/-! ## Normalisation lemmas for `buildSearchText` -/

/-- The head of a `dropWhile` result never satisfies the predicate. -/
lemma dropWhile_head_not (p : Char → Bool) :
    ∀ (l : List Char) c t, l.dropWhile p = c :: t → p c = false := by
  intro l
  induction l with
  | nil => intro c t h; simp [List.dropWhile] at h
  | cons a l ih =>
      intro c t h
      rw [List.dropWhile_cons] at h
      by_cases hp : p a
      · rw [if_pos hp] at h
        exact ih c t h
      · rw [if_neg hp] at h
        injection h with h1 _
        subst h1
        simpa using hp

/-- Characters surviving `stripNonAlnum` are lowercase alphanumerics or
whitespace. -/
lemma stripNonAlnum_chars (l : List Char) :
    ∀ c ∈ stripNonAlnum l,
      ('a' ≤ c ∧ c ≤ 'z') ∨ ('0' ≤ c ∧ c ≤ '9') ∨ isWs c = true := by
  intro c hc
  rcases List.mem_map.mp hc with ⟨a, _, rfl⟩
  by_cases h : ('a' ≤ a ∧ a ≤ 'z') ∨ ('0' ≤ a ∧ a ≤ '9') ∨ isWs a = true
  · rw [if_pos h]
    exact h
  · rw [if_neg h]
    right; right
    decide

/-- `collapseWs` turns whitespace-or-alphanumeric input into
space-or-alphanumeric output. -/
lemma collapseWs_chars :
    ∀ l : List Char,
      (∀ c ∈ l, ('a' ≤ c ∧ c ≤ 'z') ∨ ('0' ≤ c ∧ c ≤ '9') ∨ isWs c = true) →
      ∀ c ∈ collapseWs l, ('a' ≤ c ∧ c ≤ 'z') ∨ ('0' ≤ c ∧ c ≤ '9') ∨ c = ' ' := by
  intro l
  induction l using collapseWs.induct with
  | case1 =>
      intro _ c hc
      simp [collapseWs] at hc
  | case2 c cs hws ih =>
      intro hl a ha
      rw [collapseWs, if_pos hws] at ha
      rcases List.mem_cons.mp ha with rfl | ha
      · right; right; rfl
      · exact ih (fun x hx => hl x (List.mem_cons_of_mem _
          ((List.dropWhile_sublist isWs).subset hx))) a ha
  | case3 c cs hws ih =>
      intro hl a ha
      rw [collapseWs, if_neg hws] at ha
      rcases List.mem_cons.mp ha with rfl | ha
      · rcases hl a (by simp) with h | h | h
        · exact Or.inl h
        · exact Or.inr (Or.inl h)
        · exact absurd h (by simpa using hws)
      · exact ih (fun x hx => hl x (List.mem_cons_of_mem _ hx)) a ha

/-- If `collapseWs` starts with a space, its input started with whitespace. -/
lemma collapseWs_head_space :
    ∀ l : List Char, (collapseWs l).head? = some ' ' →
      ∃ c t, l = c :: t ∧ isWs c = true := by
  intro l h
  match l, h with
  | [], h => simp [collapseWs] at h
  | c :: cs, h =>
      by_cases hws : isWs c
      · exact ⟨c, cs, rfl, hws⟩
      · rw [collapseWs, if_neg hws] at h
        simp only [List.head?_cons, Option.some.injEq] at h
        subst h
        exact absurd (by decide : isWs ' ' = true) (by simpa using hws)

/-- The output of `collapseWs` never contains two adjacent spaces. -/
lemma collapseWs_chain :
    ∀ l : List Char, (collapseWs l).Chain' (fun a b => ¬(a = ' ' ∧ b = ' ')) := by
  intro l
  induction l using collapseWs.induct with
  | case1 => simp [collapseWs]
  | case2 c cs hws ih =>
      rw [collapseWs, if_pos hws]
      rw [List.chain'_cons']
      refine ⟨?_, ih⟩
      intro b hb hab
      rcases hab with ⟨_, hb'⟩
      subst hb'
      have hh : (collapseWs (cs.dropWhile isWs)).head? = some ' ' :=
        Option.mem_def.mp hb
      obtain ⟨d, t, hdt, hd⟩ := collapseWs_head_space _ hh
      exact absurd (dropWhile_head_not isWs cs d t hdt) (by simp [hd])
  | case3 c cs hws ih =>
      rw [collapseWs, if_neg hws]
      rw [List.chain'_cons']
      refine ⟨?_, ih⟩
      intro b _ hab
      rcases hab with ⟨hc', _⟩
      rw [hc'] at hws
      exact hws (by decide)

/-- Characters of the trimmed list come from the original list. -/
lemma jsTrimL_subset (l : List Char) : ∀ c ∈ jsTrimL l, c ∈ l := by
  intro c hc
  unfold jsTrimL at hc
  rw [List.mem_reverse] at hc
  have h1 := (List.dropWhile_sublist isWs).subset hc
  rw [List.mem_reverse] at h1
  exact (List.dropWhile_sublist isWs).subset h1

/-- Trimming preserves any symmetric chain condition. -/
lemma jsTrimL_chain {R : Char → Char → Prop} (hsym : ∀ a b, R a b → R b a)
    (l : List Char) (h : l.Chain' R) : (jsTrimL l).Chain' R := by
  unfold jsTrimL
  have h1 : (l.dropWhile isWs).Chain' R := h.suffix (List.dropWhile_suffix _)
  have h2 : ((l.dropWhile isWs).reverse).Chain' R := by
    refine (List.chain'_reverse.mpr ?_)
    exact h1.imp (fun a b hab => hsym a b hab)
  have h3 : (((l.dropWhile isWs).reverse).dropWhile isWs).Chain' R :=
    h2.suffix (List.dropWhile_suffix _)
  refine (List.chain'_reverse.mpr ?_)
  exact h3.imp (fun a b hab => hsym a b hab)

/-- The trimmed list neither starts nor ends with a whitespace character,
in particular not with a space. -/
lemma jsTrimL_ends (l : List Char) :
    (jsTrimL l).head? ≠ some ' ' ∧ (jsTrimL l).getLast? ≠ some ' ' := by
  constructor
  · intro h
    have hpre : jsTrimL l <+: l.dropWhile isWs := by
      rcases List.dropWhile_suffix (l := (l.dropWhile isWs).reverse) isWs with ⟨s, hs⟩
      refine ⟨s.reverse, ?_⟩
      have := congrArg List.reverse hs
      simpa [List.reverse_append, jsTrimL] using this
    rcases hpre with ⟨t, ht⟩
    cases hj : jsTrimL l with
    | nil => rw [hj] at h; cases h
    | cons a v =>
        rw [hj] at h ht
        simp only [List.head?_cons, Option.some.injEq] at h
        subst h
        have hws : l.dropWhile isWs = ' ' :: (v ++ t) := by
          rw [← ht]; rfl
        have hfalse := dropWhile_head_not isWs l _ _ hws
        exact absurd hfalse (by decide)
  · intro h
    rw [show jsTrimL l = ((l.dropWhile isWs).reverse.dropWhile isWs).reverse from rfl,
      List.getLast?_reverse] at h
    cases hw : (l.dropWhile isWs).reverse.dropWhile isWs with
    | nil => rw [hw] at h; cases h
    | cons a v =>
        rw [hw] at h
        simp only [List.head?_cons, Option.some.injEq] at h
        subst h
        have hfalse := dropWhile_head_not isWs _ _ _ hw
        exact absurd hfalse (by decide)

/-! ## Claim theorems -/

/-- Claim C6: `buildSearchText` is a pure, deterministic function of the
slot metadata — identical element attributes, label and context yield the
identical search text — and its output is fully normalised: every character
is a lowercase letter, a digit or a single space (non-alphanumerics
stripped to spaces, whitespace collapsed), with no leading or trailing
space. -/
theorem buildSearchText_pure (e1 e2 : SlotElem) (l1 l2 c1 c2 : String)
    (he : e1 = e2) (hl : l1 = l2) (hc : c1 = c2) :
    buildSearchText e1 l1 c1 = buildSearchText e2 l2 c2 ∧
    (∀ ch ∈ (buildSearchText e1 l1 c1).toList,
      ('a' ≤ ch ∧ ch ≤ 'z') ∨ ('0' ≤ ch ∧ ch ≤ '9') ∨ ch = ' ') ∧
    (buildSearchText e1 l1 c1).toList.Chain' (fun a b => ¬(a = ' ' ∧ b = ' ')) ∧
    (buildSearchText e1 l1 c1).toList.head? ≠ some ' ' ∧
    (buildSearchText e1 l1 c1).toList.getLast? ≠ some ' ' := by
  subst he hl hc
  refine ⟨rfl, ?_, ?_, ?_, ?_⟩
  · intro ch hch
    have hch' : ch ∈ jsTrimL (collapseWs (stripNonAlnum
        ((lowerStr (" ".intercalate
          (([e1.name, e1.id, e1.placeholder, l1, c1, e1.className,
             e1.dataLabel.getD "", e1.ariaLabel.getD "",
             e1.titleAttr.getD ""]).filter
            (fun p => p ≠ "" ∧ (jsTrim p).length > 0)))).toList))) := hch
    exact collapseWs_chars _ (stripNonAlnum_chars _) ch (jsTrimL_subset _ ch hch')
  · exact jsTrimL_chain (fun a b hab h => hab ⟨h.2, h.1⟩) _ (collapseWs_chain _)
  · exact (jsTrimL_ends _).1
  · exact (jsTrimL_ends _).2

/-- Witness for C6 at one concrete slot descriptor. -/
theorem buildSearchText_pure_witness :
    buildSearchText ⟨"First-Name", "fld_1", "", "Foo  Bar", none, some "A  B!", none⟩
        "Last" "ctx: zz" =
      buildSearchText ⟨"First-Name", "fld_1", "", "Foo  Bar", none, some "A  B!", none⟩
        "Last" "ctx: zz" :=
  (buildSearchText_pure ⟨"First-Name", "fld_1", "", "Foo  Bar", none, some "A  B!", none⟩
    ⟨"First-Name", "fld_1", "", "Foo  Bar", none, some "A  B!", none⟩
    "Last" "Last" "ctx: zz" "ctx: zz" rfl rfl rfl).1

unseal Rat.add Rat.mul Rat.inv Rat.sub Rat.ofScientific in
/-- Claim C1, counterexample: an `"email"`-typed, email-named slot matched
against one extracted email yields an assignment whose confidence is
`1.3 > 1`: `findBestMatch`'s `+0.3` category boost is applied after the
`Math.min(score, 1.0)` clamp, so the returned score is not clamped to
`[0, 1]`. -/
theorem findBestMatch_conf_exceeds_one :
    (findBestMatch ⟨"email", "email", "email", "email", "", "", "email"⟩
        [("email", ⟨"jane@hosp.org", 0.9, "p", "regex"⟩)]).map BestMatch.confidence =
      some (13/10) ∧ ¬ ((13 : ℚ)/10 ≤ 1) := by
  exact ⟨by decide, by norm_num⟩

/-- Claim C1, amended: every assignment returned by `findBestMatch` has
confidence strictly above the `0.15` threshold and at most `1.3`; the
`[0, 1]` clamp applies only before the category boost, so the confidence is
at most `1` whenever the slot's category does not match the winning entity
type, but may exceed `1` (never `1.3`) when it does. -/
theorem findBestMatch_conf_bounds (f : FormField) (ext : List (String × ExtractedValue))
    (bm : BestMatch) (h : findBestMatch f ext = some bm) :
    (0.15 : ℚ) < bm.confidence ∧ bm.confidence ≤ 13/10 ∧
      (categoryMatches (catOf f) bm.fieldType = false → bm.confidence ≤ 1) := by
  unfold findBestMatch at h
  obtain ⟨h1, e, _, hbm⟩ := fbm_foldl_inv f ext (0, none) (fun _ => False)
    (by intro bm hb; simp at hb) bm h
  subst hbm
  have hs := slotScore_le f e.1
  exact ⟨h1, hs.1, fun hc => hs.2 hc⟩

unseal Rat.add Rat.mul Rat.inv Rat.sub Rat.ofScientific in
/-- Witness for the amended C1 bound at a concrete slot and extraction. -/
theorem findBestMatch_conf_bounds_witness :
    (0.15 : ℚ) <
        (BestMatch.mk "jane@hosp.org" (13/10) "p" "regex" "email").confidence ∧
      (BestMatch.mk "jane@hosp.org" (13/10) "p" "regex" "email").confidence ≤ 13/10 ∧
      (categoryMatches (catOf ⟨"email", "email", "email", "email", "", "", "email"⟩)
          (BestMatch.mk "jane@hosp.org" (13/10) "p" "regex" "email").fieldType = false →
        (BestMatch.mk "jane@hosp.org" (13/10) "p" "regex" "email").confidence ≤ 1) :=
  findBestMatch_conf_bounds ⟨"email", "email", "email", "email", "", "", "email"⟩
    [("email", ⟨"jane@hosp.org", 0.9, "p", "regex"⟩)]
    (BestMatch.mk "jane@hosp.org" (13/10) "p" "regex" "email") (by decide)

/-- Claim C3: `findBestMatch` returns a best match only when some entity
type's boosted compatibility score exceeds the `0.15` threshold, and when
no entity type clears the threshold the slot simply gets no entry in the
mapping list returned by `generateFieldMappings` — a normal return value
(the embedded functions are total, so no exception is possible). -/
theorem findBestMatch_threshold_gate (f : FormField)
    (ext : List (String × ExtractedValue)) :
    (∀ bm, findBestMatch f ext = some bm →
      (0.15 : ℚ) < bm.confidence ∧
        ∃ e ∈ ext, bm = mkBestMatch f e ∧ (0.15 : ℚ) < slotScore f e.1) ∧
    ((∀ e ∈ ext, slotScore f e.1 ≤ 0.15) →
      findBestMatch f ext = none ∧ generateFieldMappings [f] ext = []) := by
  constructor
  · intro bm h
    unfold findBestMatch at h
    obtain ⟨h1, e, he, hbm⟩ := fbm_foldl_inv f ext (0, none) (fun _ => False)
      (by intro bm hb; simp at hb) bm h
    rcases he with hf | hmem
    · exact hf.elim
    · subst hbm
      exact ⟨h1, e, hmem, rfl, h1⟩
  · intro hlow
    have hfold := fbm_foldl_low f ext (0, none) hlow
    have hnone : findBestMatch f ext = none := by
      unfold findBestMatch
      rw [hfold]
    refine ⟨hnone, ?_⟩
    unfold generateFieldMappings
    simp only [List.foldl_cons, List.foldl_nil, hnone]

unseal Rat.add Rat.mul Rat.inv Rat.sub Rat.ofScientific in
/-- Witness for C3 at a slot whose scores all sit below the threshold. -/
theorem findBestMatch_threshold_gate_witness :
    findBestMatch ⟨"zzz", "zzz", "date", "", "", "", ""⟩
        [("email", ⟨"a@b.co", 0.9, "p", "regex"⟩)] = none ∧
      generateFieldMappings [⟨"zzz", "zzz", "date", "", "", "", ""⟩]
        [("email", ⟨"a@b.co", 0.9, "p", "regex"⟩)] = [] :=
  (findBestMatch_threshold_gate ⟨"zzz", "zzz", "date", "", "", "", ""⟩
    [("email", ⟨"a@b.co", 0.9, "p", "regex"⟩)]).2 (by decide)

/-- Claim C4: the pattern confidence is exactly the clamped sum of the base
`0.5` and the digit-class (`+0.2`), quantifier (`+0.1`), uppercase-class
(`+0.1`), case-insensitivity (`−0.05`) and captured-length (`+0.1` each
tier) adjustments, and always lies in `[0, 1]`. -/
theorem patternConfidence_formula (source flags : String) (g1 : Option String) :
    calculatePatternConfidence source flags g1 =
      min ((0.5 : ℚ) + (if strIncludes source "\\d" then 0.2 else 0)
        + (if strIncludes source "+" then 0.1 else 0)
        + (if strIncludes source "[A-Z]" then 0.1 else 0)
        - (if flags.toList.contains 'i' then 0.05 else 0)
        + (if (g1.getD "") ≠ "" ∧ (g1.getD "").length > 3 then 0.1 else 0)
        + (if (g1.getD "") ≠ "" ∧ (g1.getD "").length > 10 then 0.1 else 0)) 1
    ∧ 0 ≤ calculatePatternConfidence source flags g1
    ∧ calculatePatternConfidence source flags g1 ≤ 1 := by
  have hform : calculatePatternConfidence source flags g1 =
      min ((0.5 : ℚ) + (if strIncludes source "\\d" then 0.2 else 0)
        + (if strIncludes source "+" then 0.1 else 0)
        + (if strIncludes source "[A-Z]" then 0.1 else 0)
        - (if flags.toList.contains 'i' then 0.05 else 0)
        + (if (g1.getD "") ≠ "" ∧ (g1.getD "").length > 3 then 0.1 else 0)
        + (if (g1.getD "") ≠ "" ∧ (g1.getD "").length > 10 then 0.1 else 0)) 1 := rfl
  refine ⟨hform, ?_, ?_⟩
  · rw [hform]
    refine le_min ?_ (by norm_num)
    have i1 : (0 : ℚ) ≤ (if strIncludes source "\\d" then (0.2 : ℚ) else 0) := by
      split <;> norm_num
    have i2 : (0 : ℚ) ≤ (if strIncludes source "+" then (0.1 : ℚ) else 0) := by
      split <;> norm_num
    have i3 : (0 : ℚ) ≤ (if strIncludes source "[A-Z]" then (0.1 : ℚ) else 0) := by
      split <;> norm_num
    have i4 : (if flags.toList.contains 'i' then (0.05 : ℚ) else 0) ≤ 0.05 := by
      split <;> norm_num
    have i5 : (0 : ℚ) ≤
        (if (g1.getD "") ≠ "" ∧ (g1.getD "").length > 3 then (0.1 : ℚ) else 0) := by
      split <;> norm_num
    have i6 : (0 : ℚ) ≤
        (if (g1.getD "") ≠ "" ∧ (g1.getD "").length > 10 then (0.1 : ℚ) else 0) := by
      split <;> norm_num
    have : (0.5 : ℚ) - 0.05 ≥ 0 := by norm_num
    linarith
  · rw [hform]
    exact min_le_right _ _

/-- Claim C5: the overall confidence is the arithmetic mean of the mapping
confidences, `0` (not NaN) on the empty list, and `1` when every mapping
has confidence `1`. -/
theorem overallConfidence_mean :
    calculateOverallConfidence [] = 0
    ∧ (∀ l : List Mapping, l ≠ [] →
        calculateOverallConfidence l = (l.map Mapping.confidence).sum / (l.length : ℚ))
    ∧ (∀ l : List Mapping, l ≠ [] → (∀ m ∈ l, m.confidence = 1) →
        calculateOverallConfidence l = 1) := by
  have hmean : ∀ l : List Mapping, l ≠ [] →
      calculateOverallConfidence l = (l.map Mapping.confidence).sum / (l.length : ℚ) := by
    intro l hl
    unfold calculateOverallConfidence
    rw [if_neg (by simpa using hl), foldl_conf_sum]
    norm_num
  have hsum : ∀ l : List Mapping, (∀ m ∈ l, m.confidence = 1) →
      (l.map Mapping.confidence).sum = (l.length : ℚ) := by
    intro l
    induction l with
    | nil => intro _; simp
    | cons a t ih =>
        intro hone
        simp only [List.map_cons, List.sum_cons, List.length_cons,
          hone a (by simp), ih (fun m hm => hone m (List.mem_cons_of_mem _ hm))]
        push_cast
        ring
  refine ⟨rfl, hmean, ?_⟩
  intro l hl hone
  rw [hmean l hl, hsum l hone]
  have hlen : (l.length : ℚ) ≠ 0 := by
    simpa using (List.length_pos.mpr hl).ne'
  exact div_self hlen

/-- Witness for C5 on a singleton list of confidence `1`. -/
theorem overallConfidence_mean_witness :
    calculateOverallConfidence [⟨"a", "b", "c", "d", 1, "e"⟩] = 1 :=
  overallConfidence_mean.2.2 [⟨"a", "b", "c", "d", 1, "e"⟩] (by simp)
    (by intro m hm; rw [List.mem_singleton] at hm; rw [hm])

/-- Claim C7: evaluation of the learning system's pattern statistics.  Three
accepted values sharing the 3-character suffix `"abc"` (frequency 3 ≥ 2)
produce an empty common-pattern list: the suffix tally is computed but
never added to the result, so only shared prefixes are ever kept (second
conjunct), contrary to the claim that shared suffixes are kept as well. -/
theorem commonPatterns_suffix_dropped :
    extractCommonPatterns ["xxabc", "yyabc", "zzabc"] = []
    ∧ extractCommonPatterns ["abc1", "abc2", "abc3"] = [⟨"prefix", "abc", 3⟩]
    ∧ updatedCommonPatterns ["xxabc", "yyabc", "zzabc"] = [] := by
  exact ⟨by decide, by decide, by decide⟩

unseal Rat.mul Rat.inv Rat.ofScientific in
/-- Claim C8, counterexample: a slot with unknown declared type `"checkbox"`
gets factor `0.8` — the `input` row's wildcard — not a neutral factor of
approximately `0.6` (the source's `0.6` default sits behind an unreachable
branch). -/
theorem typeCompatibility_unknown_cex :
    getTypeCompatibility "checkbox" "email" = 4/5 ∧ ((4 : ℚ)/5) ≠ 3/5 := by
  exact ⟨by decide, by norm_num⟩

/-- Claim C8, amended: the type-compatibility factor table gives an
`"email"`-typed slot factor `1.0` for entity type `email`, a generic
`"text"` slot a flat `0.9` for every entity type, and a slot whose declared
type is not a key of the table falls back to the `"input"` row, factor
`0.8` for every entity type (the source's `0.6` default is dead code). -/
theorem typeCompatibility_table (dt : String) :
    getTypeCompatibility "email" "email" = 1
    ∧ getTypeCompatibility "text" dt = 9/10
    ∧ ∀ t, t ∉ compatKeys → getTypeCompatibility t dt = 4/5 := by
  refine ⟨?_, ?_, ?_⟩
  · simp [getTypeCompatibility, compatLookup, compatStar, compatKeys, Option.orElse]
    norm_num
  · simp [getTypeCompatibility, compatLookup, compatStar, compatKeys, Option.orElse]
    norm_num
  · intro t ht
    simp [getTypeCompatibility, compatLookup, compatStar, ht, Option.orElse]
    norm_num

/-- Witness for the amended C8 at another unknown declared type. -/
theorem typeCompatibility_table_witness :
    getTypeCompatibility "radio" "phone" = 4/5 :=
  (typeCompatibility_table "phone").2.2 "radio" (by decide)

/-- Claim C10: the best match `findBestMatch` returns takes its `value`
(and `pattern`/`method`) unchanged from an extracted value of the given
extraction result, while its `confidence` equals the slot-compatibility
match score `slotScore` — the extraction-time confidence is overwritten by
the object spread; and every mapping `generateFieldMappings` emits copies
its best match's value and (match-score) confidence. -/
theorem bestMatch_value_kept_conf_overwritten (f : FormField)
    (ext : List (String × ExtractedValue)) (bm : BestMatch)
    (h : findBestMatch f ext = some bm) :
    (∃ e ∈ ext, bm.value = e.2.value ∧ bm.fieldType = e.1 ∧
      bm.confidence = slotScore f e.1 ∧ bm.patt = e.2.patt ∧ bm.method = e.2.method) ∧
    (∀ flds m, m ∈ generateFieldMappings flds ext →
      ∃ g ∈ flds, ∃ b, findBestMatch g ext = some b ∧
        m.mappedValue = b.value ∧ m.confidence = b.confidence ∧
        m.extractedFrom = b.fieldType) := by
  constructor
  · unfold findBestMatch at h
    obtain ⟨_, e, he, hbm⟩ := fbm_foldl_inv f ext (0, none) (fun _ => False)
      (by intro bm hb; simp at hb) bm h
    rcases he with hf | hmem
    · exact hf.elim
    · subst hbm
      exact ⟨e, hmem, rfl, rfl, rfl, rfl, rfl⟩
  · intro flds m hm
    unfold generateFieldMappings at hm
    rcases gfm_foldl_mem ext flds [] m hm with hacc | ⟨g, hg, b, hb, hm2⟩
    · exact absurd hacc (List.not_mem_nil m)
    · subst hm2
      exact ⟨g, hg, b, hb, rfl, rfl, rfl⟩

unseal Rat.add Rat.mul Rat.inv Rat.sub Rat.ofScientific in
/-- Witness for C10 at the concrete email slot. -/
theorem bestMatch_value_kept_witness :
    (∃ e ∈ [("email", (⟨"jane@hosp.org", 0.9, "p", "regex"⟩ : ExtractedValue))],
      (BestMatch.mk "jane@hosp.org" (13/10) "p" "regex" "email").value = e.2.value ∧
      (BestMatch.mk "jane@hosp.org" (13/10) "p" "regex" "email").fieldType = e.1 ∧
      (BestMatch.mk "jane@hosp.org" (13/10) "p" "regex" "email").confidence =
        slotScore ⟨"email", "email", "email", "email", "", "", "email"⟩ e.1 ∧
      (BestMatch.mk "jane@hosp.org" (13/10) "p" "regex" "email").patt = e.2.patt ∧
      (BestMatch.mk "jane@hosp.org" (13/10) "p" "regex" "email").method = e.2.method) ∧
    (∀ flds m,
      m ∈ generateFieldMappings flds [("email", ⟨"jane@hosp.org", 0.9, "p", "regex"⟩)] →
      ∃ g ∈ flds, ∃ b,
        findBestMatch g [("email", ⟨"jane@hosp.org", 0.9, "p", "regex"⟩)] = some b ∧
        m.mappedValue = b.value ∧ m.confidence = b.confidence ∧
        m.extractedFrom = b.fieldType) :=
  bestMatch_value_kept_conf_overwritten
    ⟨"email", "email", "email", "email", "", "", "email"⟩
    [("email", ⟨"jane@hosp.org", 0.9, "p", "regex"⟩)]
    (BestMatch.mk "jane@hosp.org" (13/10) "p" "regex" "email") (by decide)

/-- Claim C2: for every input text the extractor produces at most one
extracted value per entity type (the result's keys are duplicate-free); the
strict pass binds each entity type to the result of its first-match-wins
pattern loop (`tryPatterns`, which stops at the first matching pattern);
and the flexible pass never overwrites a strict entry — every entry it adds
carries `method = "flexible"`. -/
theorem extract_at_most_one (t : String) :
    ((extractStructuredData t).map Prod.fst).Nodup ∧
    (∀ ft ps, (ft, ps) ∈ fieldPatternsList →
      (strictExtract t).lookup ft = tryPatterns t ps) ∧
    (∀ ft v, (strictExtract t).lookup ft = some v →
      (extractStructuredData t).lookup ft = some v) ∧
    (∀ ft v, (extractStructuredData t).lookup ft = some v →
      (strictExtract t).lookup ft = some v ∨ ExtractedValue.method v = "flexible") := by
  have hnd : ((strictExtract t).map Prod.fst).Nodup :=
    fieldPatterns_keys_nodup.sublist
      (filterMap_keys_sublist (tryPatterns t) fieldPatternsList)
  have hE : extractStructuredData t =
      (((splitNlL t.toList).map jsTrimL).filter
        (fun l => l.length > 0)).foldl flexLine (strictExtract t) := rfl
  have hfold := flex_fold_inv
    (((splitNlL t.toList).map jsTrimL).filter (fun l => l.length > 0))
    (strictExtract t) hnd
  refine ⟨by rw [hE]; exact hfold.1, ?_, ?_, ?_⟩
  · intro ft ps hmem
    exact filterMap_lookup (tryPatterns t) fieldPatternsList
      fieldPatterns_keys_nodup ft ps hmem
  · intro ft v h
    rw [hE]
    exact hfold.2.1 ft v h
  · intro ft v h
    rw [hE] at h
    exact hfold.2.2 ft v h

unseal Rat.add Rat.mul Rat.inv Rat.sub Rat.ofScientific in
/-- Witness for C2: on `"zip: 90210"` the extraction has duplicate-free
keys and the strict zip-code entry survives the flexible pass unchanged. -/
theorem extract_at_most_one_witness :
    ((extractStructuredData "zip: 90210").map Prod.fst).Nodup ∧
    (extractStructuredData "zip: 90210").lookup "zipCode" =
      some ⟨"90210", 3/4, "/zip[:\\s]*(\\d\x7b5\x7d(?:-\\d\x7b4\x7d)?)/i", "regex"⟩ :=
  ⟨(extract_at_most_one "zip: 90210").1,
   (extract_at_most_one "zip: 90210").2.2.1 "zipCode"
     ⟨"90210", 3/4, "/zip[:\\s]*(\\d\x7b5\x7d(?:-\\d\x7b4\x7d)?)/i", "regex"⟩ (by decide)⟩

/-- Claim C9: on empty or whitespace-only input, `extractStructuredData`
returns the empty mapping: no strict pattern matches (every library pattern
requires a non-whitespace character) and the flexible pass sees no
non-empty trimmed lines; the embedded function is total, so the call
completes normally. -/
theorem extract_ws_empty (t : String) (h : ∀ c ∈ t.toList, isWs c = true) :
    extractStructuredData t = [] := by
  have hall : t.toList.all isWs = true := List.all_eq_true.mpr h
  unfold extractStructuredData
  rw [extractFlexiblePatterns_ws_id t hall, strictExtract_ws_nil t hall]

/-- Witness for C9 on a whitespace-only input (and the empty string's
extraction follows the same theorem). -/
theorem extract_ws_empty_witness :
    extractStructuredData " \n\t " = [] ∧ extractStructuredData "" = [] :=
  ⟨extract_ws_empty " \n\t " (by decide), extract_ws_empty "" (by decide)⟩

end CursorBrowser
